import Mathlib

/-!
# Schema derivation of `swagger/reflect.go`

A shallow embedding of `inspect`, `defineObject`, `define` and `MakeSchema`
(`src/swagger/reflect.go`) together with the part of Go's `reflect` and
`strings` packages they use.

* Go strings are Lean strings (valid UTF-8); byte-level operations are spelled
  out where the source slices bytes (`field.Name[0:1]`).
* A Go panic and running out of evaluation fuel are the two errors of `Err`.
* The order in which Go ranges over a map is not specified; it is an explicit
  parameter (`choice`) of `define`.
-/

namespace Swagger

/-! ## reflect: kinds and type descriptors -/

/-- The kinds of `reflect.Kind`. -/
inductive Kind where
  | Invalid | Bool | Int | Int8 | Int16 | Int32 | Int64
  | Uint | Uint8 | Uint16 | Uint32 | Uint64 | Uintptr
  | Float32 | Float64 | Complex64 | Complex128
  | Array | Chan | Func | Interface | Map | Ptr | Slice | String | Struct
  | UnsafePointer
  deriving DecidableEq, Repr, Inhabited

/-- The text of `reflect.Kind.String()`. -/
def kindString : Kind → String
  | .Invalid => "invalid" | .Bool => "bool" | .Int => "int" | .Int8 => "int8"
  | .Int16 => "int16" | .Int32 => "int32" | .Int64 => "int64"
  | .Uint => "uint" | .Uint8 => "uint8" | .Uint16 => "uint16"
  | .Uint32 => "uint32" | .Uint64 => "uint64" | .Uintptr => "uintptr"
  | .Float32 => "float32" | .Float64 => "float64"
  | .Complex64 => "complex64" | .Complex128 => "complex128"
  | .Array => "array" | .Chan => "chan" | .Func => "func"
  | .Interface => "interface" | .Map => "map" | .Ptr => "ptr"
  | .Slice => "slice" | .String => "string" | .Struct => "struct"
  | .UnsafePointer => "unsafe.Pointer"

/-- The kinds of the types that `reflect.go` never looks inside: every kind of a
real type except pointer, slice and struct. -/
inductive LeafKind where
  | Bool | Int | Int8 | Int16 | Int32 | Int64
  | Uint | Uint8 | Uint16 | Uint32 | Uint64 | Uintptr
  | Float32 | Float64 | Complex64 | Complex128
  | Array | Chan | Func | Interface | Map | String | UnsafePointer
  deriving DecidableEq, Repr, Inhabited

/-- The `reflect.Kind` of a leaf kind. -/
def LeafKind.toKind : LeafKind → Kind
  | .Bool => .Bool | .Int => .Int | .Int8 => .Int8 | .Int16 => .Int16
  | .Int32 => .Int32 | .Int64 => .Int64 | .Uint => .Uint | .Uint8 => .Uint8
  | .Uint16 => .Uint16 | .Uint32 => .Uint32 | .Uint64 => .Uint64
  | .Uintptr => .Uintptr | .Float32 => .Float32 | .Float64 => .Float64
  | .Complex64 => .Complex64 | .Complex128 => .Complex128
  | .Array => .Array | .Chan => .Chan | .Func => .Func
  | .Interface => .Interface | .Map => .Map | .String => .String
  | .UnsafePointer => .UnsafePointer

/-- A `reflect.Type`. Struct types are referred to by their index in the table
of struct declarations (`Env`), which is what lets a struct refer to itself.
`pkgPath` and `name` are what `PkgPath()` and `Name()` return (both empty for
an unnamed type). -/
inductive GoType where
  | leaf (k : LeafKind) (pkgPath name : String)
  | ptr (pkgPath name : String) (elem : GoType)
  | slice (pkgPath name : String) (elem : GoType)
  | struct (id : Nat)
  deriving DecidableEq, Repr, Inhabited

/-- One `reflect.StructField`: its name, its type, and the values that
`Tag.Get` returns for the three keys the source reads. -/
structure StructField where
  Name : String
  Typ : GoType
  json : String := ""
  required : String := ""
  desc : String := ""
  deriving DecidableEq, Repr, Inhabited

/-- A struct declaration: `PkgPath()`, `Name()` and the fields in declaration
order. -/
structure StructDecl where
  PkgPath : String := ""
  Name : String := ""
  Fields : List StructField := []
  deriving DecidableEq, Repr, Inhabited

/-- The struct declarations of the program, indexed by `GoType.struct`. -/
abbrev Env := List StructDecl

/-- Declaration of the struct with index `id` (the empty struct when the index
is not in the table). -/
def Env.decl (env : Env) (id : Nat) : StructDecl :=
  env.getD id {}

/-- The method `Type.Kind()`. -/
def GoType.Kind : GoType → Kind
  | .leaf k _ _ => k.toKind
  | .ptr _ _ _ => .Ptr
  | .slice _ _ _ => .Slice
  | .struct _ => .Struct

/-- The method `Type.PkgPath()`. -/
def GoType.PkgPath (env : Env) : GoType → String
  | .leaf _ p _ => p
  | .ptr p _ _ => p
  | .slice p _ _ => p
  | .struct id => (env.decl id).PkgPath

/-- The method `Type.Name()`. -/
def GoType.Name (env : Env) : GoType → String
  | .leaf _ _ n => n
  | .ptr _ n _ => n
  | .slice _ n _ => n
  | .struct id => (env.decl id).Name

/-- The prototype `v interface{}` handed to `defineObject`: the untyped nil, a
`reflect.Type`, or a value of static type `t`. For a value of struct type,
`dyn` lists, field by field, the dynamic type held by an interface-typed field
(`none` for a nil interface, and for fields that are not interfaces). -/
inductive Proto where
  | nil
  | type (t : GoType)
  | value (t : GoType) (dyn : List (Option GoType))
  deriving DecidableEq, Repr, Inhabited

/-! ## strings -/

/-- The function `strings.Contains` on character lists. -/
def containsL : List Char → List Char → Bool
  | [], sub => sub.isEmpty
  | c :: cs, sub => sub.isPrefixOf (c :: cs) || containsL cs sub

/-- The function `strings.Contains`. -/
def strContains (s sub : String) : Bool := containsL s.data sub.data

/-- The function `strings.HasPrefix`. -/
def strHasPrefix (s pre : String) : Bool := pre.data.isPrefixOf s.data

/-- The predicate `unicode.IsSpace`. -/
def isSpace (c : Char) : Bool :=
  let n := c.toNat
  n == 0x09 || n == 0x0A || n == 0x0B || n == 0x0C || n == 0x0D || n == 0x20
    || n == 0x85 || n == 0xA0 || n == 0x1680 || (0x2000 ≤ n && n ≤ 0x200A)
    || n == 0x2028 || n == 0x2029 || n == 0x202F || n == 0x205F || n == 0x3000

/-- The function `strings.TrimSpace`. -/
def strTrimSpace (s : String) : String :=
  ⟨((s.data.dropWhile isSpace).reverse.dropWhile isSpace).reverse⟩

/-- First element of `strings.Split(s, ",")`: the text before the first comma. -/
def firstSegment (s : String) : String :=
  ⟨s.data.takeWhile (fun c => c != ',')⟩

/-- First byte of the UTF-8 encoding of a character. -/
def leadByte (c : Char) : Nat :=
  let v := c.toNat
  if v < 0x80 then v
  else if v < 0x800 then 0xC0 + v / 0x40
  else if v < 0x10000 then 0xE0 + v / 0x1000
  else 0xF0 + v / 0x40000

/-- The bytes of `strings.ToLower(s)` for a one-byte string `s`: an ASCII
capital is lowered, any other ASCII byte is kept, and a byte that is not ASCII
(an incomplete UTF-8 sequence on its own) is replaced by the encoding of
U+FFFD, as `strings.Map` does. -/
def toLowerByte (b : Nat) : List Nat :=
  if b < 0x80 then (if 0x41 ≤ b ∧ b ≤ 0x5A then [b + 0x20] else [b])
  else [0xEF, 0xBF, 0xBD]

/-- The test `strings.ToLower(field.Name[0:1]) == field.Name[0:1]` of
`defineObject`; `none` when the name is empty (the slice expression panics). -/
def lowerFirstByteUnchanged (name : String) : Option Bool :=
  match name.data with
  | [] => none
  | c :: _ => some (toLowerByte (leadByte c) == [leadByte c])

/-! ## util.go -/

/-- Modelled from the spec: `makeRef` of `swagger/util.go` (not among the
sources); a reference is the registry-local pointer `#/definitions/<name>`. -/
def makeRef (name : String) : String := "#/definitions/" ++ name

/-- Last element of a slash-separated path. -/
def pathBase (p : List Char) : List Char :=
  (p.reverse.takeWhile (fun c => c != '/')).reverse

/-- Modelled from the spec: `makeName` of `swagger/util.go` (not among the
sources). The name is the type's qualifier (the last element of its package
path) followed by its local name, every character that cannot stand in an
identifier replaced by an underscore; `util_test.go` has `with-some-dashes` and
`Name` give `with_some_dashesName`. -/
def makeNameOf (pkgPath name : String) : String :=
  ⟨(pathBase pkgPath.data ++ name.data).map
    (fun c => if c.isAlphanum || c == '_' then c else '_')⟩

/-- The call `makeName(t)`: it reads only `t.PkgPath()` and `t.Name()`. -/
def makeName (env : Env) (t : GoType) : String :=
  makeNameOf (t.PkgPath env) (t.Name env)

/-! ## api.go: the data model -/

/-- The element fragment `Items` of an array-typed property. -/
structure Items where
  Typ : String := ""
  Format : String := ""
  Ref : String := ""
  deriving DecidableEq, Repr, Inhabited

/-- One field's schema fragment (`Property`); only the fields that
`reflect.go` assigns are modelled. `Items = none` is the nil pointer. -/
structure Property where
  GoType : GoType
  Typ : String := ""
  Format : String := ""
  Description : String := ""
  Ref : String := ""
  Items : Option Items := none
  deriving DecidableEq, Repr, Inhabited

/-- A `map[string]Property`, as an association list with distinct keys. -/
abbrev Properties := List (String × Property)

/-- A named schema entity (`Object`). `Required = none` is the nil slice; the
nil map of a scalar object is the empty association list. -/
structure Object where
  IsArray : Bool := false
  GoType : GoType
  Typ : String := ""
  Format : String := ""
  Name : String := ""
  Required : Option (List String) := none
  Properties : Properties := []
  deriving DecidableEq, Repr, Inhabited

/-- The value handed back by `MakeSchema` (`Schema`). -/
structure Schema where
  Prototype : Proto
  TypeAlias : String
  Typ : String := ""
  Items : Option Items := none
  Ref : String := ""
  deriving DecidableEq, Repr, Inhabited

/-- The two ways an evaluation fails to return: a Go panic, or the evaluation
fuel is used up. -/
inductive Err where
  | goPanic
  | outOfFuel
  deriving DecidableEq, Repr, Inhabited

/-- The assignment `m[k] = v` on a map: replace the entry when the key is
present, add it otherwise. -/
def mapSet {β : Type} : List (String × β) → String → β → List (String × β)
  | [], k, v => [(k, v)]
  | (k0, v0) :: rest, k, v =>
    if k0 = k then (k, v) :: rest else (k0, v0) :: mapSet rest k v

/-- The keys of a map. -/
def mapKeys {β : Type} (m : List (String × β)) : List String := m.map Prod.fst

/-- The lookup `m[k]` with its presence flag. -/
def mapGet {β : Type} : List (String × β) → String → Option β
  | [], _ => none
  | (k0, v0) :: rest, k => if k0 = k then some v0 else mapGet rest k

/-! ## reflect.go -/

/-- The inner switch of `inspect` for the element type of a slice when that
element is neither a pointer nor a struct. -/
def itemsOfLeaf : LeafKind → Items
  | .Int | .Int8 | .Int16 | .Int32 | .Uint8 | .Uint16 | .Uint32 =>
    { Typ := "integer", Format := "int32" }
  | .Int64 | .Uint64 => { Typ := "integer", Format := "int64" }
  | .Float64 => { Typ := "number", Format := "double" }
  | .Float32 => { Typ := "number", Format := "float" }
  | .String => { Typ := "string" }
  | _ => {}

/-- The function `inspect(t, jsonTag)`. -/
def inspect (env : Env) (t : GoType) (jsonTag : String) : Property :=
  if strContains jsonTag ",string" then
    { GoType := t, Typ := "string" }
  else
    match t with
    | .leaf k _ _ =>
      match k with
      | .Int | .Int8 | .Int16 | .Int32 | .Uint8 | .Uint16 | .Uint32 =>
        { GoType := t, Typ := "integer", Format := "int32" }
      | .Int64 | .Uint64 => { GoType := t, Typ := "integer", Format := "int64" }
      | .Float64 => { GoType := t, Typ := "number", Format := "double" }
      | .Float32 => { GoType := t, Typ := "number", Format := "float" }
      | .Bool => { GoType := t, Typ := "boolean" }
      | .String => { GoType := t, Typ := "string" }
      | _ => { GoType := t }
    | .struct _ => { GoType := t, Ref := makeRef (makeName env t) }
    | .ptr _ _ e => { GoType := e, Ref := makeRef (makeName env e) }
    | .slice _ _ e =>
      match e with
      | .ptr _ _ e2 =>
        { GoType := e2, Typ := "array",
          Items := some { Ref := makeRef (makeName env e2) } }
      | .struct _ =>
        { GoType := e, Typ := "array",
          Items := some { Ref := makeRef (makeName env e) } }
      | .leaf k _ _ => { GoType := e, Typ := "array", Items := some (itemsOfLeaf k) }
      | .slice _ _ _ => { GoType := e, Typ := "array", Items := some {} }

/-- The type of the prototype: the switch on `v.(type)` at the head of
`defineObject`; `none` for the untyped nil, where `reflect.TypeOf` returns a
nil type. -/
def protoType : Proto → Option GoType
  | .nil => none
  | .type t => some t
  | .value t _ => some t

/-- The step `if isArray { t = t.Elem() }`. -/
def unwrapSlice : GoType → GoType
  | .slice _ _ e => e
  | t => t

/-- The step `if t.Kind() == reflect.Ptr { t = t.Elem() }`. -/
def unwrapPtr : GoType → GoType
  | .ptr _ _ e => e
  | t => t

/-- The type a field is inspected with: its declared type, or, for a field of
interface kind, `reflect.ValueOf(v).Field(i).Elem().Type()`. That expression
panics unless `v` is itself a struct value (`Field` on the value of a
`reflect.Type`, of a pointer or of a slice panics) whose field holds a value
(`Type` on the zero `Value` panics). -/
def fieldType (v : Proto) (i : Nat) (field : StructField) : Except Err GoType :=
  if field.Typ.Kind = Kind.Interface then
    match v with
    | .value (.struct _) dyn =>
      match dyn.getD i none with
      | some d => .ok d
      | none => .error .goPanic
    | _ => .error .goPanic
  else .ok field.Typ

/-- The variables `required` and `properties` of `defineObject`. -/
abbrev FieldAcc := Option (List String) × Properties

/-- The statement `required = append(required, name)` with its lazy creation. -/
def appendRequired (required : Option (List String)) (name : String) :
    Option (List String) :=
  match required with
  | none => some [name]
  | some l => some (l ++ [name])

/-- The loop `for k, v := range child.Properties { properties[k] = v }`. The
keys of the child are distinct, so the resulting map does not depend on the
order of the range. -/
def mergeProperties (properties child : Properties) : Properties :=
  child.foldl (fun m kv => mapSet m kv.1 kv.2) properties

/-- The tail of the loop body of `defineObject`, from the second
`strings.Split` on: the skip on `-`, the required list and the property. -/
def addField (env : Env) (ft : GoType) (field : StructField) (name : String)
    (acc : FieldAcc) : FieldAcc :=
  let name := firstSegment name
  if name = "-" then acc
  else
    let required := if field.required = "true" then appendRequired acc.1 name else acc.1
    let p := inspect env ft field.json
    (required, mapSet acc.2 name { p with Description := field.desc })

/-- One iteration of the field loop of `defineObject`; `child` is the recursive
call `defineObject("", field.Type)`. -/
def defineField (env : Env) (child : GoType → Except Err Object) (v : Proto)
    (i : Nat) (field : StructField) (acc : FieldAcc) : Except Err FieldAcc :=
  match lowerFirstByteUnchanged field.Name with
  | none => .error .goPanic
  | some true => .ok acc
  | some false =>
    match fieldType v i field with
    | .error e => .error e
    | .ok ft =>
      let name := strTrimSpace field.json
      if name = "" ∨ strHasPrefix name "," then
        if strContains name "inline" then
          match child ft with
          | .error e => .error e
          | .ok c => .ok (acc.1, mergeProperties acc.2 c.Properties)
        else .ok (addField env ft field field.Name acc)
      else .ok (addField env ft field (firstSegment name) acc)

/-- The field loop `for i := 0; i < t.NumField(); i++` of `defineObject`, from
index `i` on. -/
def defineFields (env : Env) (child : GoType → Except Err Object) (v : Proto) :
    Nat → List StructField → FieldAcc → Except Err FieldAcc
  | _, [], acc => .ok acc
  | i, field :: rest, acc =>
    match defineField env child v i field acc with
    | .error e => .error e
    | .ok acc1 => defineFields env child v (i + 1) rest acc1

/-- The function `defineObject(name, v)`. The fuel bounds the depth of the
recursion through inlined fields. -/
def defineObject (env : Env) : Nat → String → Proto → Except Err Object
  | 0, _, _ => .error .outOfFuel
  | fuel + 1, name, v =>
    match protoType v with
    | none => .error .goPanic
    | some t0 =>
      let isArray := decide (t0.Kind = Kind.Slice)
      let t := unwrapPtr (if isArray then unwrapSlice t0 else t0)
      match t with
      | .struct id =>
        match defineFields env (fun ft => defineObject env fuel "" (.type ft)) v 0
            (env.decl id).Fields (none, []) with
        | .error e => .error e
        | .ok (required, properties) =>
          .ok { IsArray := isArray, GoType := t, Typ := "object",
                Name := if name = "" then makeName env t else name,
                Required := required, Properties := properties }
      | _ =>
        let p := inspect env t ""
        .ok { IsArray := isArray, GoType := t, Typ := p.Typ, Format := p.Format,
              Name := kindString t.Kind, Required := none }

/-- The map `objMap` of `define`. -/
abbrev Registry := List (String × Object)

/-- The variables of the fixed-point loop of `define`, and the number of
choices of iteration order taken so far. -/
structure LoopState where
  objMap : Registry
  dirty : Bool
  tick : Nat
  deriving DecidableEq, Repr

/-- An order in which a range visits `n` elements of a list: element
`choice tick` (modulo the number left) first, and so on. Every order is given
by some `choice`. -/
def rangeOrder {α : Type} (choice : Nat → Nat) : Nat → Nat → List α → List α
  | 0, _, _ => []
  | _ + 1, _, [] => []
  | n + 1, tick, x :: xs =>
    let i := choice tick % (x :: xs).length
    (x :: xs).getD i x :: rangeOrder choice n (tick + 1) ((x :: xs).eraseIdx i)

/-- The body of the innermost loop of `define` for one property `p`. -/
def visitProperty (env : Env) (fuel : Nat) (p : Property) (st : LoopState) :
    Except Err LoopState :=
  match p.GoType with
  | .struct _ =>
    let name := makeName env p.GoType
    if (mapGet st.objMap name).isSome then .ok st
    else
      match defineObject env fuel "" (.type p.GoType) with
      | .error e => .error e
      | .ok child =>
        .ok { st with objMap := mapSet st.objMap child.Name child, dirty := true }
  | _ => .ok st

/-- The loop `for _, p := range d.Properties` over the properties in the order
given. -/
def visitProperties (env : Env) (fuel : Nat) :
    List Property → LoopState → Except Err LoopState
  | [], st => .ok st
  | p :: ps, st =>
    match visitProperty env fuel p st with
    | .error e => .error e
    | .ok st1 => visitProperties env fuel ps st1

/-- The body of `for _, d := range objMap` for one definition `d`: its
properties are ranged over in an order taken from `choice`. -/
def visitObject (env : Env) (choice : Nat → Nat) (fuel : Nat) (d : Object)
    (st : LoopState) : Except Err LoopState :=
  let ps := rangeOrder choice d.Properties.length st.tick (d.Properties.map Prod.snd)
  visitProperties env fuel ps { st with tick := st.tick + d.Properties.length }

/-- The loop `for _, d := range objMap`, while `objMap` grows. `start` are the
keys present when the range began and `visited` the keys produced so far. Each
step produces a key not produced yet, taken from `choice`; an entry created
during the range may be produced or skipped, so the range may end (choice `0`)
as soon as every key of `start` has been produced. -/
def rangeObjMap (env : Env) (choice : Nat → Nat) (fuel : Nat) :
    Nat → List String → List String → LoopState → Except Err LoopState
  | 0, _, _, _ => .error .outOfFuel
  | n + 1, start, visited, st =>
    let pending := (mapKeys st.objMap).filter (fun k => !visited.contains k)
    match pending with
    | [] => .ok st
    | k0 :: rest =>
      let c := choice st.tick
      if (pending.all fun k => !start.contains k) && c == 0 then
        .ok { st with tick := st.tick + 1 }
      else
        let k := (k0 :: rest).getD (c % (k0 :: rest).length) k0
        match mapGet st.objMap k with
        | none => .ok st
        | some d =>
          match visitObject env choice fuel d { st with tick := st.tick + 1 } with
          | .error e => .error e
          | .ok st1 => rangeObjMap env choice fuel n start (k :: visited) st1

/-- The loop `for dirty { ... }` of `define`. -/
def fixLoop (env : Env) (choice : Nat → Nat) (fuel : Nat) :
    Nat → LoopState → Except Err LoopState
  | 0, _ => .error .outOfFuel
  | n + 1, st =>
    match rangeObjMap env choice fuel fuel (mapKeys st.objMap) []
        { st with dirty := false } with
    | .error e => .error e
    | .ok st1 => if st1.dirty then fixLoop env choice fuel n st1 else .ok st1

/-- The function `define(alias, v)`. `choice` fixes the order of every range
over a map, and `fuel` bounds the recursion depth of `defineObject`, the number
of definitions one range produces and the number of passes. -/
def define (env : Env) (choice : Nat → Nat) (fuel : Nat) (aliasName : String)
    (v : Proto) : Except Err Registry :=
  match defineObject env fuel aliasName v with
  | .error e => .error e
  | .ok obj =>
    match fixLoop env choice fuel fuel
        { objMap := mapSet [] obj.Name obj, dirty := true, tick := 0 } with
    | .error e => .error e
    | .ok st => .ok st.objMap

/-- The function `MakeSchema(name, prototype)`. -/
def MakeSchema (env : Env) (fuel : Nat) (name : String) (prototype : Proto) :
    Except Err Schema :=
  match defineObject env fuel name prototype with
  | .error e => .error e
  | .ok obj =>
    if obj.IsArray then
      .ok { Prototype := prototype, TypeAlias := name, Typ := "array",
            Items := some { Ref := makeRef obj.Name } }
    else
      .ok { Prototype := prototype, TypeAlias := name, Ref := makeRef obj.Name }

/-! ## Notions used in the statements -/

/-- The type `defineObject` describes: the prototype's type with at most one
slice level and then at most one pointer level removed. -/
def unwrapped (t0 : GoType) : GoType :=
  unwrapPtr (if decide (t0.Kind = Kind.Slice) then unwrapSlice t0 else t0)

/-- A property of registries that every insertion made by the loop keeps. -/
def StepInvariant (env : Env) (fuel : Nat) (P : Registry → Prop) : Prop :=
  ∀ (m : Registry) (id : Nat) (child : Object), P m →
    mapGet m (makeName env (.struct id)) = none →
    defineObject env fuel "" (.type (.struct id)) = .ok child →
    P (mapSet m child.Name child)

/-- Every struct-typed property in the list has its name among the keys. -/
def Covered (env : Env) (m : Registry) (ps : List Property) : Prop :=
  ∀ p ∈ ps, ∀ id, p.GoType = .struct id → (mapGet m (makeName env p.GoType)).isSome = true

/-- Every definition of the registry has its struct-typed properties among the keys. -/
def Closed (env : Env) (m : Registry) : Prop :=
  ∀ e ∈ m, Covered env m (e.2.Properties.map Prod.snd)

/-- The invariant of the registry when the root was defined with an empty hint:
the definitions describe distinct types, and a struct is keyed by its name. -/
def KeyedByType (env : Env) (m : Registry) : Prop :=
  (m.map (fun e => e.2.GoType)).Nodup ∧
    ∀ e ∈ m, ∀ id, e.2.GoType = .struct id → e.1 = makeName env e.2.GoType

/-! ## Prototypes used as examples -/

/-- The struct `type A struct { Self *A }` whose field is tagged
`json:",inline"`. -/
def selfInlineEnv : Env :=
  [{ PkgPath := "main", Name := "A",
     Fields := [{ Name := "Self", Typ := .ptr "" "" (.struct 0), json := ",inline" }] }]

/-- The struct `type T struct { P *int }`. -/
def ptrIntEnv : Env :=
  [{ PkgPath := "main", Name := "T",
     Fields := [{ Name := "P", Typ := .ptr "" "" (.leaf .Int "" "int") }] }]

/-- The struct `type Node struct { Next *Node }`. -/
def nodeEnv : Env :=
  [{ PkgPath := "main", Name := "Node",
     Fields := [{ Name := "Next", Typ := .ptr "" "" (.struct 0) }] }]

/-- The structs `APIResponse` (index 0) and `Person` (index 1) of
`reflect_test.go`. -/
def apiResponseEnv : Env :=
  [{ PkgPath := "main", Name := "APIResponse",
     Fields := [{ Name := "Code", Typ := .leaf .Int "" "int", json := "code" },
                { Name := "Message", Typ := .leaf .String "" "string", json := "message" },
                { Name := "Data", Typ := .leaf .Interface "" "", json := "data" }] },
   { PkgPath := "main", Name := "Person",
     Fields := [{ Name := "First", Typ := .leaf .String "" "string" }] }]

/-- Two structs without tags: `Test { Exported interface{}; unexported string }`
(index 0) and `Accents { Exported string; été string }` (index 1). -/
def visibilityEnv : Env :=
  [{ PkgPath := "main", Name := "Test",
     Fields := [{ Name := "Exported", Typ := .leaf .Interface "" "" },
                { Name := "unexported", Typ := .leaf .String "" "string" }] },
   { PkgPath := "main", Name := "Accents",
     Fields := [{ Name := "Exported", Typ := .leaf .String "" "string" },
                { Name := "été", Typ := .leaf .String "" "string" }] }]

/-- The struct `Empty { Nope interface{} }` with the field tagged `json:"-"`
(index 0), and the same struct with that field removed (index 1). -/
def ignoredEnv : Env :=
  [{ PkgPath := "main", Name := "Empty",
     Fields := [{ Name := "Nope", Typ := .leaf .Interface "" "", json := "-" }] },
   { PkgPath := "main", Name := "Empty", Fields := [] }]

/-! ## Notions used in the statements on fields -/


/-- The external name of a field: the name under which `defineObject` stores
the field's property (the value of `name` after the second `strings.Split`). -/
def externalName (field : StructField) : String :=
  let name := strTrimSpace field.json
  firstSegment (if name = "" ∨ strHasPrefix name "," then field.Name else firstSegment name)

/-- The test under which `defineObject` inlines a field: the trimmed json tag
has no name segment and contains `inline`. -/
def isInlined (field : StructField) : Bool :=
  let name := strTrimSpace field.json
  decide (name = "" ∨ strHasPrefix name ",") && strContains name "inline"

/-- The fields that the claim on `Required` names: those that pass the
visibility test of `defineObject`, are not inlined, are not skipped by the
name `-` and whose required tag is literally `true`. -/
def isRequiredField (field : StructField) : Bool :=
  lowerFirstByteUnchanged field.Name == some false && !isInlined field &&
    decide (externalName field ≠ "-") && decide (field.required = "true")

/-- A Go slice that is nil when it has no element. -/
def nilIfEmpty : List String → Option (List String)
  | [] => none
  | a :: l => some (a :: l)

/-- The list the claim on `Required` describes: the external names of the
required fields in declaration order, nil when there is none. -/
def requiredNames (fields : List StructField) : Option (List String) :=
  nilIfEmpty ((fields.filter isRequiredField).map externalName)

/-! ## Further prototypes used as examples -/

/-- The struct `type R struct { A struct{ X int }; B struct{ Y string } }`:
index 0 is `R`, indices 1 and 2 are the two unnamed struct types. -/
def anonEnv : Env :=
  [{ PkgPath := "main", Name := "R",
     Fields := [{ Name := "A", Typ := .struct 1 }, { Name := "B", Typ := .struct 2 }] },
   { Fields := [{ Name := "X", Typ := .leaf .Int "" "int" }] },
   { Fields := [{ Name := "Y", Typ := .leaf .String "" "string" }] }]

/-- Structs with an inlined field: `Wrapper { Resp APIResponse }` with `Resp`
tagged `json:",inline"` (index 0), `APIResponse` and `Person` of
`reflect_test.go` (indices 1 and 2), and
`Outer { Inner Person; Extra interface{} }` with `Inner` tagged
`json:",inline"` (index 3). -/
def inlineEnv : Env :=
  [{ PkgPath := "main", Name := "Wrapper",
     Fields := [{ Name := "Resp", Typ := .struct 1, json := ",inline" }] },
   { PkgPath := "main", Name := "APIResponse",
     Fields := [{ Name := "Code", Typ := .leaf .Int "" "int", json := "code" },
                { Name := "Message", Typ := .leaf .String "" "string", json := "message" },
                { Name := "Data", Typ := .leaf .Interface "" "", json := "data" }] },
   { PkgPath := "main", Name := "Person",
     Fields := [{ Name := "First", Typ := .leaf .String "" "string" }] },
   { PkgPath := "main", Name := "Outer",
     Fields := [{ Name := "Inner", Typ := .struct 2, json := ",inline" },
                { Name := "Extra", Typ := .leaf .Interface "" "" }] }]

/-- Structs with a required field: `Accent { été string }` (index 0) and
`Holder { A interface{} }` (index 1), the field tagged `required:"true"`. -/
def requiredEnv : Env :=
  [{ PkgPath := "main", Name := "Accent",
     Fields := [{ Name := "été", Typ := .leaf .String "" "string", required := "true" }] },
   { PkgPath := "main", Name := "Holder",
     Fields := [{ Name := "A", Typ := .leaf .Interface "" "", required := "true" }] }]

/-- The struct `Tagged { Data interface{} }` with `Data` tagged
`json:"data,string"` (index 0), and `Person` (index 1). -/
def stringTagEnv : Env :=
  [{ PkgPath := "main", Name := "Tagged",
     Fields := [{ Name := "Data", Typ := .leaf .Interface "" "", json := "data,string" }] },
   { PkgPath := "main", Name := "Person",
     Fields := [{ Name := "First", Typ := .leaf .String "" "string" }] }]

/-! ## api.go: the document and endpoint data model

The declarations of `swagger.API`, `swagger.Endpoint` and their parts are not
among the sources; the fields are those that `builder.go` and
`endpoint/builder.go` assign. A nil slice and a nil map are the empty list; a
nil pointer is `none`. -/

/-- The struct `swagger.Contact`. -/
structure Contact where
  Email : String := ""
  deriving DecidableEq, Repr, Inhabited

/-- The struct `swagger.License`. -/
structure License where
  Name : String := ""
  URL : String := ""
  deriving DecidableEq, Repr, Inhabited

/-- The struct `swagger.Info`. -/
structure Info where
  Contact : Contact := {}
  Description : String := ""
  Title : String := ""
  Version : String := ""
  TermsOfService : String := ""
  License : License := {}
  deriving DecidableEq, Repr, Inhabited

/-- The struct `swagger.Docs` (external documentation of a tag). -/
structure ExternalDocs where
  Description : String := ""
  URL : String := ""
  deriving DecidableEq, Repr, Inhabited

/-- The struct `swagger.Tag`. -/
structure Tag where
  Name : String := ""
  Description : String := ""
  Docs : Option ExternalDocs := none
  deriving DecidableEq, Repr, Inhabited

/-- The struct `swagger.SecurityRequirement`: each requirement is a
`map[string][]string`. -/
structure SecurityRequirement where
  Requirements : List (List (String × List String)) := []
  DisableSecurity : Bool := false
  deriving DecidableEq, Repr, Inhabited

/-- The struct `swagger.API`. -/
structure API where
  BasePath : String := ""
  DocPath : String := ""
  Swagger : String := ""
  Schemes : List String := []
  Info : Info := {}
  Host : String := ""
  Tags : List Tag := []
  Security : Option SecurityRequirement := none
  deriving DecidableEq, Repr, Inhabited

/-- The struct `swagger.Header`. -/
structure Header where
  Typ : String := ""
  Format : String := ""
  Description : String := ""
  deriving DecidableEq, Repr, Inhabited

/-- The struct `swagger.Response`. -/
structure Response where
  Description : String := ""
  Schema : Option Schema := none
  Headers : List (String × Header) := []
  deriving DecidableEq, Repr, Inhabited

/-- The struct `swagger.Parameter`. -/
structure Parameter where
  Name : String := ""
  In : String := ""
  Typ : String := ""
  Description : String := ""
  Required : Bool := false
  Schema : Option Schema := none
  deriving DecidableEq, Repr, Inhabited

/-- A value stored in `Endpoint.Handler`: a plain
`func(http.ResponseWriter, *http.Request)`, the same function as an
`http.HandlerFunc`, or any other value; the handlers are told apart by a
number. -/
inductive HandlerValue where
  | nil
  | plainFunc (f : Nat)
  | handlerFunc (f : Nat)
  | other (x : Nat)
  deriving DecidableEq, Repr, Inhabited

/-- The struct `swagger.Endpoint`. -/
structure Endpoint where
  Method : String := ""
  Path : String := ""
  Summary : String := ""
  OperationID : String := ""
  Description : String := ""
  Produces : List String := []
  Consumes : List String := []
  Tags : List String := []
  Handler : HandlerValue := .nil
  Parameters : List Parameter := []
  Security : Option SecurityRequirement := none
  Responses : List (String × Response) := []
  deriving DecidableEq, Repr, Inhabited

/-! ## strconv -/

/-- The decimal digits of `n`, most significant first, in front of `acc`; the
fuel bounds the number of digits. -/
def decimalDigits : Nat → Nat → List Nat → List Nat
  | 0, _, acc => acc
  | fuel + 1, n, acc =>
    if n < 10 then n :: acc else decimalDigits fuel (n / 10) (n % 10 :: acc)

/-- The character of a decimal digit. -/
def digitChar (d : Nat) : Char := Char.ofNat (48 + d)

/-- The function `strconv.Itoa`: the decimal text of an integer, with a minus
sign in front of a negative one. -/
def Itoa : Int → String
  | .ofNat n => ⟨(decimalDigits (n + 1) n []).map digitChar⟩
  | .negSucc n => ⟨'-' :: (decimalDigits (n + 2) (n + 1) []).map digitChar⟩

/-! ## builder.go (package docs) -/

namespace DocsBuilder

/-- A `TagOption`, by the function that builds it. -/
inductive TagOption where
  | TagDescription (v : String)
  | TagURL (v : String)
  deriving DecidableEq, Repr

/-- The effect of a `TagOption` on the tag. -/
def TagOption.apply : TagOption → Tag → Tag
  | .TagDescription v, t =>
    { t with Docs := some { (t.Docs.getD {}) with Description := v } }
  | .TagURL v, t =>
    { t with Docs := some { (t.Docs.getD {}) with URL := v } }

/-- An `Option` of the api builder, by the function that builds it.
`Endpoints` and `SecurityScheme` are left out: they go through
`API.AddEndpoint` and the `swagger.SecuritySchemeOption` functions, which are
not among the sources. -/
inductive ApiOption where
  | Description (v : String)
  | Version (v : String)
  | TermsOfService (v : String)
  | Title (v : String)
  | ContactEmail (v : String)
  | License (name url : String)
  | BasePath (v : String)
  | Schemes (v : List String)
  | Tag (name description : String) (options : List TagOption)
  | Host (v : String)
  | Security (scheme : String) (scopes : List String)
  deriving DecidableEq, Repr

/-- The statement `append(requirements, map[string][]string{scheme: scopes})`
of both `Security` options, after the nil checks. -/
def addRequirement (s : Option SecurityRequirement) (scheme : String)
    (scopes : List String) : Option SecurityRequirement :=
  let r := s.getD {}
  some { r with Requirements := r.Requirements ++ [[(scheme, scopes)]] }

/-- The effect of an option on the builder's API. -/
def ApiOption.apply : ApiOption → API → API
  | .Description v, api => { api with Info := { api.Info with Description := v } }
  | .Version v, api => { api with Info := { api.Info with Version := v } }
  | .TermsOfService v, api => { api with Info := { api.Info with TermsOfService := v } }
  | .Title v, api => { api with Info := { api.Info with Title := v } }
  | .ContactEmail v, api =>
    { api with Info := { api.Info with Contact := { api.Info.Contact with Email := v } } }
  | .License name url, api =>
    { api with Info := { api.Info with
        License := { api.Info.License with Name := name, URL := url } } }
  | .BasePath v, api => { api with BasePath := v }
  | .Schemes v, api => { api with Schemes := v }
  | .Tag name description options, api =>
    let t := options.foldl (fun t opt => opt.apply t)
      { Name := name, Description := description }
    { api with Tags := api.Tags ++ [t] }
  | .Host v, api => { api with Host := v }
  | .Security scheme scopes, api =>
    { api with Security := addRequirement api.Security scheme scopes }

/-- The API that `New` starts from. -/
def defaultAPI : API :=
  { BasePath := "/", DocPath := "/swagger", Swagger := "2.0", Schemes := ["http"],
    Info := { Contact := { Email := "your-email-address" },
              Description := "Describe your API", Title := "Your API Title",
              Version := "SNAPSHOT", TermsOfService := "http://swagger.io/terms/",
              License := { Name := "Apache 2.0",
                           URL := "http://www.apache.org/licenses/LICENSE-2.0.html" } } }

/-- The function `New(options...)` of package `docs`. -/
def New (options : List ApiOption) : API :=
  options.foldl (fun api opt => opt.apply api) defaultAPI

end DocsBuilder

/-! ## endpoint/builder.go (package endpoint) -/

namespace EndpointBuilder

/-- The library and helper functions that `New` calls and whose code is not
modelled: `strings.ToUpper` and `strings.ToLower` (Unicode case mapping) and
the helper `camel` of package `endpoint`, which is not among the sources. -/
structure StringLib where
  ToUpper : String → String
  ToLower : String → String
  camel : String → String

/-- A `ResponseOption`, by the function that builds it. -/
inductive ResponseOption where
  | Header (name typ format description : String)
  deriving DecidableEq, Repr

/-- The effect of a `ResponseOption` on the response. -/
def ResponseOption.apply : ResponseOption → Response → Response
  | .Header name typ format description, r =>
    let h : Swagger.Header := { Typ := typ, Format := format, Description := description }
    { r with Headers := mapSet r.Headers name h }

/-- An `Option` of the endpoint builder, by the function that builds it and
its arguments. A `reflect.Type` argument may be nil (`none`). `Body(p, ..)` is
`BodyType(reflect.TypeOf(p), ..)`. -/
inductive EndpointOption where
  | Handler (handler : HandlerValue)
  | Description (v : String)
  | OperationID (v : String)
  | Produces (v : List String)
  | Consumes (v : List String)
  | Path (name typ description : String) (required : Bool)
  | Query (name typ description : String) (required : Bool)
  | BodyType (t : Option GoType) (description : String) (required : Bool)
  | Tags (tags : List String)
  | Security (scheme : String) (scopes : List String)
  | NoSecurity
  | ResponseType (code : Int) (t : Option GoType) (name description : String)
      (opts : List ResponseOption)
  | Response (code : Int) (prototype : Proto) (name description : String)
      (opts : List ResponseOption)
  deriving DecidableEq, Repr

/-- A `reflect.Type` handed over as an `interface{}`: the nil type is the
untyped nil. -/
def typeProto : Option GoType → Proto
  | none => .nil
  | some t => .type t

/-- The response that `ResponseType` and `Response` build: the schema of the
prototype, then the response options in order. -/
def buildResponse (env : Env) (fuel : Nat) (prototype : Proto) (name description : String)
    (opts : List ResponseOption) : Except Err Response :=
  match MakeSchema env fuel name prototype with
  | .error e => .error e
  | .ok schema =>
    .ok (opts.foldl (fun r opt => opt.apply r)
      { Description := description, Schema := some schema })

/-- The effect of an option on the builder's endpoint. The schema of a
`BodyType` option is computed when the option is built and that of a response
when it is applied; either way a panic there is a panic of the call of `New`. -/
def EndpointOption.apply (env : Env) (fuel : Nat) :
    EndpointOption → Endpoint → Except Err Endpoint
  | .Handler handler, e =>
    .ok { e with Handler := match handler with
                            | .plainFunc f => .handlerFunc f
                            | h => h }
  | .Description v, e => .ok { e with Description := v }
  | .OperationID v, e => .ok { e with OperationID := v }
  | .Produces v, e => .ok { e with Produces := v }
  | .Consumes v, e => .ok { e with Consumes := v }
  | .Path name typ description required, e =>
    .ok { e with Parameters := e.Parameters ++
      [{ Name := name, In := "path", Typ := typ, Description := description,
         Required := required }] }
  | .Query name typ description required, e =>
    .ok { e with Parameters := e.Parameters ++
      [{ Name := name, In := "query", Typ := typ, Description := description,
         Required := required }] }
  | .BodyType t description required, e =>
    match MakeSchema env fuel "" (typeProto t) with
    | .error err => .error err
    | .ok schema =>
      .ok { e with Parameters := e.Parameters ++
        [{ In := "body", Name := "body", Description := description,
           Schema := some schema, Required := required }] }
  | .Tags tags, e => .ok { e with Tags := e.Tags ++ tags }
  | .Security scheme scopes, e =>
    .ok { e with Security := DocsBuilder.addRequirement e.Security scheme scopes }
  | .NoSecurity, e => .ok { e with Security := some { DisableSecurity := true } }
  | .ResponseType code t name description opts, e =>
    match buildResponse env fuel (typeProto t) name description opts with
    | .error err => .error err
    | .ok r => .ok { e with Responses := mapSet e.Responses (Itoa code) r }
  | .Response code prototype name description opts, e =>
    match buildResponse env fuel prototype name description opts with
    | .error err => .error err
    | .ok r => .ok { e with Responses := mapSet e.Responses (Itoa code) r }

/-- The loop `for _, opt := range options { opt.Apply(e) }`. -/
def applyOptions (env : Env) (fuel : Nat) :
    List EndpointOption → Endpoint → Except Err Endpoint
  | [], e => .ok e
  | opt :: rest, e =>
    match opt.apply env fuel e with
    | .error err => .error err
    | .ok e1 => applyOptions env fuel rest e1

/-- The endpoint `New` starts from. -/
def newEndpoint (lib : StringLib) (method path summary : String) : Endpoint :=
  { Method := lib.ToUpper method, Path := path, Summary := summary,
    OperationID := lib.ToLower (lib.ToUpper method) ++ lib.camel path,
    Produces := ["application/json"], Consumes := ["application/json"], Tags := [] }

/-- The function `New(method, path, summary, options...)` of package
`endpoint`. -/
def New (lib : StringLib) (env : Env) (fuel : Nat) (method path summary : String)
    (options : List EndpointOption) : Except Err Endpoint :=
  applyOptions env fuel options (newEndpoint lib method path summary)

/-- The function `Get`. -/
def Get (lib : StringLib) (env : Env) (fuel : Nat) (path summary : String)
    (options : List EndpointOption) : Except Err Endpoint :=
  New lib env fuel "get" path summary options

/-- The function `Post`. -/
def Post (lib : StringLib) (env : Env) (fuel : Nat) (path summary : String)
    (options : List EndpointOption) : Except Err Endpoint :=
  New lib env fuel "post" path summary options

/-- The function `Put`. -/
def Put (lib : StringLib) (env : Env) (fuel : Nat) (path summary : String)
    (options : List EndpointOption) : Except Err Endpoint :=
  New lib env fuel "put" path summary options

/-- The function `Delete`. -/
def Delete (lib : StringLib) (env : Env) (fuel : Nat) (path summary : String)
    (options : List EndpointOption) : Except Err Endpoint :=
  New lib env fuel "delete" path summary options

/-- The function `Patch`. -/
def Patch (lib : StringLib) (env : Env) (fuel : Nat) (path summary : String)
    (options : List EndpointOption) : Except Err Endpoint :=
  New lib env fuel "patch" path summary options

/-- The function `Options`. -/
def Options (lib : StringLib) (env : Env) (fuel : Nat) (path summary : String)
    (options : List EndpointOption) : Except Err Endpoint :=
  New lib env fuel "options" path summary options

end EndpointBuilder

/-! ## Notions used in the statements on the builders -/

namespace EndpointBuilder

/-- The option returns when it is built and applied: the prototype or type of
a body or response option is one on which `MakeSchema` returns. -/
def optionReturns (env : Env) (fuel : Nat) : EndpointOption → Prop
  | .BodyType t _ _ => ∃ s, MakeSchema env fuel "" (typeProto t) = .ok s
  | .ResponseType _ t name _ _ => ∃ s, MakeSchema env fuel name (typeProto t) = .ok s
  | .Response _ prototype name _ _ => ∃ s, MakeSchema env fuel name prototype = .ok s
  | _ => True

/-- The status code of a `ResponseType` or `Response` option. -/
def responseCode : EndpointOption → Option Int
  | .ResponseType code _ _ _ _ => some code
  | .Response code _ _ _ _ => some code
  | _ => none

/-- The response built by a `ResponseType` or `Response` option, when building
it returns. -/
def responseOf (env : Env) (fuel : Nat) : EndpointOption → Option Response
  | .ResponseType _ t name description opts =>
    match buildResponse env fuel (typeProto t) name description opts with
    | .ok r => some r
    | .error _ => none
  | .Response _ prototype name description opts =>
    match buildResponse env fuel prototype name description opts with
    | .ok r => some r
    | .error _ => none
  | _ => none

/-- The response built by the last option of the list that has the given
status code. -/
def lastResponse (env : Env) (fuel : Nat) : List EndpointOption → Int → Option Response
  | [], _ => none
  | o :: rest, code =>
    match lastResponse env fuel rest code with
    | some r => some r
    | none => if responseCode o = some code then responseOf env fuel o else none

/-- The value of `Produces` after the options: that of the last `Produces`
option, the value before them when there is none. -/
def producesAfter : List EndpointOption → List String → List String
  | [], d => d
  | .Produces v :: rest, _ => producesAfter rest v
  | _ :: rest, d => producesAfter rest d

/-- The value of `Consumes` after the options: that of the last `Consumes`
option, the value before them when there is none. -/
def consumesAfter : List EndpointOption → List String → List String
  | [], d => d
  | .Consumes v :: rest, _ => consumesAfter rest v
  | _ :: rest, d => consumesAfter rest d

/-- An instance of the library functions for the examples: the case mapping
of ASCII letters, and a `camel` that keeps the letters and digits of the path. -/
def asciiLib : StringLib :=
  { ToUpper := fun s => ⟨s.data.map Char.toUpper⟩,
    ToLower := fun s => ⟨s.data.map Char.toLower⟩,
    camel := fun s => ⟨s.data.filter Char.isAlphanum⟩ }

end EndpointBuilder

/-! ## Further notions and prototypes used in the statements -/

/-- The definition under the key `k`, if any, has its struct-typed properties
among the keys. -/
def CoveredAt (env : Env) (m : Registry) (k : String) : Prop :=
  ∀ d, mapGet m k = some d → Covered env m (d.Properties.map Prod.snd)

/-- The struct `Pet { Name string; Tag string }` with `Name` tagged
`json:"name" required:"true"` and `Tag` tagged `json:"tag"`. -/
def petEnv : Env :=
  [{ PkgPath := "main", Name := "Pet",
     Fields := [{ Name := "Name", Typ := .leaf .String "" "string", json := "name",
                  required := "true" },
                { Name := "Tag", Typ := .leaf .String "" "string", json := "tag" }] }]

/-- A field of a struct leaves the property under the name `k` as it is: the
field is unexported, or it is not inlined and its external name is not `k`, or
it is inlined and the definition of its type has no property named `k`.
`j` is the field's index and `fuel` the fuel of the inlined call. -/
def LeavesName (env : Env) (fuel : Nat) (v : Proto) (k : String) (j : Nat)
    (f : StructField) : Prop :=
  lowerFirstByteUnchanged f.Name = some true ∨
  (isInlined f = false ∧ externalName f ≠ k) ∨
  (isInlined f = true ∧ ∀ ft c, fieldType v j f = .ok ft →
    defineObject env fuel "" (.type ft) = .ok c → mapGet c.Properties k = none)

/-- The struct `Envelope { Data interface{}; Code int }` with the fields tagged
`json:"data"` and `json:"code"` (index 0), and `Person` (index 1). -/
def envelopeEnv : Env :=
  [{ PkgPath := "main", Name := "Envelope",
     Fields := [{ Name := "Data", Typ := .leaf .Interface "" "", json := "data" },
                { Name := "Code", Typ := .leaf .Int "" "int", json := "code" }] },
   { PkgPath := "main", Name := "Person",
     Fields := [{ Name := "First", Typ := .leaf .String "" "string" }] }]

/-- The types reachable from the root type through the definitions of a
registry: the root type itself, and the struct type of every property of a
definition of a reachable type. -/
inductive Reachable (reg : Registry) (rootType : GoType) : GoType → Prop where
  | base : Reachable reg rootType rootType
  | step (e : String × Object) (p : Property) (id : Nat) :
      e ∈ reg → Reachable reg rootType e.2.GoType →
      p ∈ e.2.Properties.map Prod.snd → p.GoType = .struct id →
      Reachable reg rootType p.GoType

/-- Names tell the types of the registry apart: a definition whose type has
the name of the struct type of a property (of any definition of the registry)
is of that type. -/
def NamesDistinct (env : Env) (reg : Registry) : Prop :=
  ∀ e1 ∈ reg, ∀ e2 ∈ reg, ∀ p ∈ e2.2.Properties.map Prod.snd,
    p.GoType.Kind = Kind.Struct →
    makeName env e1.2.GoType = makeName env p.GoType → e1.2.GoType = p.GoType

/-- The registry of `APIResponse{Data: Person{}}`: the definitions of
`APIResponse` and of `Person`. -/
def apiResponseRegistry : Registry :=
  [("mainAPIResponse",
    { GoType := .struct 0, Typ := "object", Name := "mainAPIResponse",
      Properties :=
        [("code", { GoType := .leaf .Int "" "int", Typ := "integer", Format := "int32" }),
         ("message", { GoType := .leaf .String "" "string", Typ := "string" }),
         ("data", { GoType := .struct 1, Ref := "#/definitions/mainPerson" })] }),
   ("mainPerson",
    { GoType := .struct 1, Typ := "object", Name := "mainPerson",
      Properties := [("First", { GoType := .leaf .String "" "string", Typ := "string" })] })]

/-! ## Maps -/

theorem mapGet_eq_none_iff {β : Type} (m : List (String × β)) (k : String) :
    mapGet m k = none ↔ k ∉ mapKeys m := by
  induction m with
  | nil => simp [mapGet, mapKeys]
  | cons e rest ih =>
    obtain ⟨k0, v0⟩ := e
    by_cases h : k0 = k
    · simp [mapGet, mapKeys, h]
    · have h2 : ¬ k = k0 := fun e => h e.symm
      simpa [mapGet, mapKeys, h, h2] using ih

theorem mapGet_mem {β : Type} (m : List (String × β)) (k : String) (v : β)
    (h : mapGet m k = some v) : (k, v) ∈ m := by
  induction m with
  | nil => simp [mapGet] at h
  | cons e rest ih =>
    obtain ⟨k0, v0⟩ := e
    by_cases hk : k0 = k
    · simp [mapGet, hk] at h
      simp [hk, h]
    · simp [mapGet, hk] at h
      exact List.mem_cons_of_mem _ (ih h)

theorem mapSet_of_not_mem {β : Type} (m : List (String × β)) (k : String) (v : β)
    (h : k ∉ mapKeys m) : mapSet m k v = m ++ [(k, v)] := by
  induction m with
  | nil => rfl
  | cons e rest ih =>
    obtain ⟨k0, v0⟩ := e
    have hk : ¬ k0 = k := fun e => h (by simp [mapKeys, e])
    have hr : k ∉ mapKeys rest := fun hm => h (by simp [mapKeys] at hm ⊢; exact Or.inr hm)
    simp [mapSet, hk, ih hr]

theorem mapKeys_mapSet_subset {β : Type} (m : List (String × β)) (k k1 : String) (v : β)
    (h : k1 ∈ mapKeys m) : k1 ∈ mapKeys (mapSet m k v) := by
  induction m with
  | nil => simp [mapKeys] at h
  | cons e rest ih =>
    obtain ⟨k0, v0⟩ := e
    by_cases hk : k0 = k
    · simp [mapSet, hk, mapKeys] at h ⊢
      rcases h with h | h
      · exact Or.inl h
      · exact Or.inr h
    · simp only [mapSet, hk, if_false, mapKeys, List.map_cons, List.mem_cons] at h ⊢
      rcases h with h | h
      · exact Or.inl h
      · exact Or.inr (ih h)

/-! ## The result of defineObject -/

theorem defineObject_ok (env : Env) (fuel : Nat) (name : String) (v : Proto) (obj : Object)
    (h : defineObject env fuel name v = .ok obj) :
    ∃ t0, protoType v = some t0 ∧
      obj.IsArray = decide (t0.Kind = Kind.Slice) ∧
      obj.GoType = unwrapped t0 ∧
      ((∃ id, obj.GoType = .struct id ∧ obj.Typ = "object" ∧
          obj.Name = (if name = "" then makeName env obj.GoType else name)) ∨
       ((∀ id, obj.GoType ≠ .struct id) ∧ obj.Name = kindString obj.GoType.Kind ∧
          obj.Properties = [] ∧ obj.Required = none ∧
          obj.Typ = (inspect env obj.GoType "").Typ ∧
          obj.Format = (inspect env obj.GoType "").Format)) := by
  cases fuel with
  | zero => simp [defineObject] at h
  | succ n =>
    simp only [defineObject] at h
    cases hv : protoType v with
    | none => simp [hv] at h
    | some t0 =>
      simp only [hv] at h
      refine ⟨t0, rfl, ?_⟩
      cases ht : unwrapped t0 with
      | struct id =>
        simp only [unwrapped] at ht
        simp only [ht] at h
        split at h
        · cases h
        · cases h
          exact ⟨rfl, rfl, Or.inl ⟨id, rfl, rfl, rfl⟩⟩
      | leaf k a b =>
        simp only [unwrapped] at ht
        simp only [ht] at h
        cases h
        exact ⟨rfl, rfl, Or.inr ⟨by intro id; simp, rfl, rfl, rfl, rfl, rfl⟩⟩
      | ptr a b e =>
        simp only [unwrapped] at ht
        simp only [ht] at h
        cases h
        exact ⟨rfl, rfl, Or.inr ⟨by intro id; simp, rfl, rfl, rfl, rfl, rfl⟩⟩
      | slice a b e =>
        simp only [unwrapped] at ht
        simp only [ht] at h
        cases h
        exact ⟨rfl, rfl, Or.inr ⟨by intro id; simp, rfl, rfl, rfl, rfl, rfl⟩⟩

/-! ## The loop of define: what every insertion keeps -/

theorem visitProperty_ok (env : Env) (fuel : Nat) (p : Property) (st st1 : LoopState)
    (h : visitProperty env fuel p st = .ok st1) :
    st1 = st ∨ ∃ id child, p.GoType = .struct id ∧
      mapGet st.objMap (makeName env p.GoType) = none ∧
      defineObject env fuel "" (.type p.GoType) = .ok child ∧
      st1 = { st with objMap := mapSet st.objMap child.Name child, dirty := true } := by
  cases hp : p.GoType with
  | struct id =>
    simp only [visitProperty, hp] at h
    by_cases hs : (mapGet st.objMap (makeName env (GoType.struct id))).isSome = true
    · simp only [hs, if_true] at h
      left; cases h; rfl
    · simp only [hs] at h
      cases hc : defineObject env fuel "" (Proto.type (GoType.struct id)) with
      | error e => simp [hc] at h
      | ok child =>
        simp only [hc] at h
        right
        refine ⟨id, child, rfl, ?_, rfl, ?_⟩
        · cases hg : mapGet st.objMap (makeName env (GoType.struct id)) with
          | none => rfl
          | some x => simp [hg] at hs
        · simp at h; exact h.symm
  | leaf k a b => simp only [visitProperty, hp] at h; left; cases h; rfl
  | ptr a b e => simp only [visitProperty, hp] at h; left; cases h; rfl
  | slice a b e => simp only [visitProperty, hp] at h; left; cases h; rfl

theorem visitProperty_preserves (env : Env) (fuel : Nat) (P : Registry → Prop)
    (hP : StepInvariant env fuel P) (p : Property) (st st1 : LoopState)
    (h0 : P st.objMap) (h : visitProperty env fuel p st = .ok st1) : P st1.objMap := by
  rcases visitProperty_ok env fuel p st st1 h with rfl | ⟨id, child, hid, hnone, hchild, rfl⟩
  · exact h0
  · rw [hid] at hnone hchild
    exact hP _ id child h0 hnone hchild

theorem visitProperties_preserves (env : Env) (fuel : Nat) (P : Registry → Prop)
    (hP : StepInvariant env fuel P) (ps : List Property) :
    ∀ (st st1 : LoopState), P st.objMap → visitProperties env fuel ps st = .ok st1 →
      P st1.objMap := by
  induction ps with
  | nil => intro st st1 h0 h; simp only [visitProperties] at h; cases h; exact h0
  | cons p ps ih =>
    intro st st1 h0 h
    simp only [visitProperties] at h
    cases hv : visitProperty env fuel p st with
    | error e => simp [hv] at h
    | ok st2 =>
      simp only [hv] at h
      exact ih st2 st1 (visitProperty_preserves env fuel P hP p st st2 h0 hv) h

theorem visitObject_preserves (env : Env) (choice : Nat → Nat) (fuel : Nat)
    (P : Registry → Prop) (hP : StepInvariant env fuel P) (d : Object)
    (st st1 : LoopState) (h0 : P st.objMap)
    (h : visitObject env choice fuel d st = .ok st1) : P st1.objMap :=
  visitProperties_preserves env fuel P hP _
    { st with tick := st.tick + d.Properties.length } st1 h0 h

theorem rangeObjMap_preserves (env : Env) (choice : Nat → Nat) (fuel : Nat)
    (P : Registry → Prop) (hP : StepInvariant env fuel P) (n : Nat) :
    ∀ (start visited : List String) (st st1 : LoopState), P st.objMap →
      rangeObjMap env choice fuel n start visited st = .ok st1 → P st1.objMap := by
  induction n with
  | zero => intro start visited st st1 _ h; simp [rangeObjMap] at h
  | succ n ih =>
    intro start visited st st1 h0 h
    simp only [rangeObjMap] at h
    split at h
    · cases h; exact h0
    · rename_i k0 rest hpend
      split at h
      · cases h; exact h0
      · split at h
        · cases h; exact h0
        · rename_i d hd
          split at h
          · cases h
          · rename_i st2 hv
            exact ih start _ st2 st1
              (visitObject_preserves env choice fuel P hP d
                { st with tick := st.tick + 1 } st2 h0 hv) h

theorem fixLoop_preserves (env : Env) (choice : Nat → Nat) (fuel : Nat)
    (P : Registry → Prop) (hP : StepInvariant env fuel P) (n : Nat) :
    ∀ (st st1 : LoopState), P st.objMap →
      fixLoop env choice fuel n st = .ok st1 → P st1.objMap := by
  induction n with
  | zero => intro st st1 _ h; simp [fixLoop] at h
  | succ n ih =>
    intro st st1 h0 h
    simp only [fixLoop] at h
    split at h
    · cases h
    · rename_i st2 hr
      have h2 : P st2.objMap :=
        rangeObjMap_preserves env choice fuel P hP fuel _ _
          { st with dirty := false } st2 h0 hr
      split at h
      · exact ih st2 st1 h2 h
      · cases h; exact h2

theorem define_preserves (env : Env) (choice : Nat → Nat) (fuel : Nat)
    (P : Registry → Prop) (hP : StepInvariant env fuel P) (aliasName : String)
    (v : Proto) (reg : Registry)
    (h0 : ∀ obj, defineObject env fuel aliasName v = .ok obj → P [(obj.Name, obj)])
    (h : define env choice fuel aliasName v = .ok reg) : P reg := by
  simp only [define] at h
  split at h
  · cases h
  · rename_i obj hobj
    split at h
    · cases h
    · rename_i st hst
      cases h
      exact fixLoop_preserves env choice fuel P hP fuel _ st (h0 obj hobj) hst

/-! ## The loop of define on a registry that is already closed -/

theorem getD_mem_cons {α : Type} (x : α) (xs : List α) (i : Nat) :
    (x :: xs).getD i x ∈ x :: xs := by
  by_cases h : i < (x :: xs).length
  · rw [List.getD_eq_getElem _ _ h]; exact List.getElem_mem _
  · rw [List.getD_eq_default _ _ (by omega)]; exact List.mem_cons_self _ _

theorem rangeOrder_mem {α : Type} (choice : Nat → Nat) (n : Nat) :
    ∀ (tick : Nat) (xs : List α) (y : α), y ∈ rangeOrder choice n tick xs → y ∈ xs := by
  induction n with
  | zero => intro tick xs y h; simp [rangeOrder] at h
  | succ n ih =>
    intro tick xs y h
    cases xs with
    | nil => simp [rangeOrder] at h
    | cons x xs =>
      simp only [rangeOrder, List.mem_cons] at h
      rcases h with h | h
      · rw [h]; exact getD_mem_cons x xs _
      · exact List.mem_of_mem_eraseIdx (ih _ _ _ h)

theorem visitProperties_covered (env : Env) (fuel : Nat) (ps : List Property) :
    ∀ (st : LoopState), Covered env st.objMap ps → visitProperties env fuel ps st = .ok st := by
  induction ps with
  | nil => intro st _; rfl
  | cons p ps ih =>
    intro st h
    have hp : visitProperty env fuel p st = .ok st := by
      cases hg : p.GoType with
      | struct id =>
        have := h p (List.mem_cons_self _ _) id hg
        rw [hg] at this
        simp only [visitProperty, hg, this, if_true]
      | leaf k a b => simp only [visitProperty, hg]
      | ptr a b e => simp only [visitProperty, hg]
      | slice a b e => simp only [visitProperty, hg]
    simp only [visitProperties, hp]
    exact ih st (fun q hq => h q (List.mem_cons_of_mem _ hq))

theorem visitObject_closed (env : Env) (choice : Nat → Nat) (fuel : Nat) (d : Object)
    (st : LoopState) (h : Covered env st.objMap (d.Properties.map Prod.snd)) :
    visitObject env choice fuel d st =
      .ok { st with tick := st.tick + d.Properties.length } := by
  simp only [visitObject]
  apply visitProperties_covered
  intro p hp
  exact h p (rangeOrder_mem choice _ _ _ p hp)

theorem filter_length_le {α : Type} (p q : α → Bool)
    (hpq : ∀ x, q x = true → p x = true) (l : List α) :
    (l.filter q).length ≤ (l.filter p).length := by
  induction l with
  | nil => simp
  | cons a l ih =>
    cases hq : q a <;> cases hp : p a
    · simpa [List.filter_cons, hq, hp] using ih
    · simp only [List.filter_cons, hq, hp, if_true, List.length_cons]
      simp; omega
    · rw [hpq a hq] at hp; cases hp
    · simp only [List.filter_cons, hq, hp, if_true, List.length_cons]
      omega

theorem filter_length_lt {α : Type} (p q : α → Bool)
    (hpq : ∀ x, q x = true → p x = true) (k : α) (hpk : p k = true) (hqk : q k = false)
    (l : List α) (hk : k ∈ l) :
    (l.filter q).length < (l.filter p).length := by
  induction l with
  | nil => simp at hk
  | cons a l ih =>
    rcases List.mem_cons.mp hk with rfl | hk2
    · have := filter_length_le p q hpq l
      simp only [List.filter_cons, hqk, hpk, if_true, List.length_cons]
      simp; omega
    · have := ih hk2
      cases hq : q a <;> cases hp : p a
      · simpa [List.filter_cons, hq, hp] using this
      · simp only [List.filter_cons, hq, hp, if_true, List.length_cons]
        simp; omega
      · rw [hpq a hq] at hp; cases hp
      · simp only [List.filter_cons, hq, hp, if_true, List.length_cons]
        omega

theorem filter_visited_lt (keys visited : List String) (k : String)
    (hk : k ∈ keys.filter (fun x => !visited.contains x)) :
    (keys.filter (fun x => !(k :: visited).contains x)).length
      < (keys.filter (fun x => !visited.contains x)).length := by
  have h1 := (List.mem_filter.mp hk).1
  have h2 := (List.mem_filter.mp hk).2
  apply filter_length_lt _ _ _ k h2 _ keys h1
  · intro x hx
    simp at hx ⊢
    exact hx.2
  · simp

theorem rangeObjMap_closed (env : Env) (choice : Nat → Nat) (fuel : Nat) (m : Registry)
    (hc : Closed env m) (n : Nat) :
    ∀ (start visited : List String) (dirty : Bool) (tick : Nat),
      ((mapKeys m).filter (fun k => !visited.contains k)).length < n →
      ∃ t, rangeObjMap env choice fuel n start visited
          { objMap := m, dirty := dirty, tick := tick } =
        .ok { objMap := m, dirty := dirty, tick := t } := by
  induction n with
  | zero => intro start visited dirty tick h; omega
  | succ n ih =>
    intro start visited dirty tick hlen
    simp only [rangeObjMap]
    cases hpend : (mapKeys m).filter (fun k => !visited.contains k) with
    | nil => exact ⟨tick, rfl⟩
    | cons k0 rest =>
      simp only []
      split
      · exact ⟨tick + 1, rfl⟩
      · have hk : (k0 :: rest).getD (choice tick % (k0 :: rest).length) k0
            ∈ (mapKeys m).filter (fun k => !visited.contains k) := by
          rw [hpend]; exact getD_mem_cons k0 rest _
        generalize (k0 :: rest).getD (choice tick % (k0 :: rest).length) k0 = k at hk
        cases hg : mapGet m k with
        | none => exact ⟨tick, rfl⟩
        | some d =>
          simp only []
          have hd : (k, d) ∈ m := mapGet_mem m k d hg
          rw [visitObject_closed env choice fuel d _ (hc (k, d) hd)]
          simp only []
          apply ih
          have := filter_visited_lt (mapKeys m) visited k hk
          omega

theorem fixLoop_closed (env : Env) (choice : Nat → Nat) (fuel : Nat) (m : Registry)
    (hc : Closed env m) (hfuel : (mapKeys m).length < fuel) (n : Nat) (dirty : Bool)
    (tick : Nat) :
    ∃ t, fixLoop env choice fuel (n + 1) { objMap := m, dirty := dirty, tick := tick } =
      .ok { objMap := m, dirty := false, tick := t } := by
  have hlen : ((mapKeys m).filter (fun k => !([] : List String).contains k)).length < fuel :=
    Nat.lt_of_le_of_lt (List.length_filter_le _ _) hfuel
  obtain ⟨t, ht⟩ := rangeObjMap_closed env choice fuel m hc fuel (mapKeys m) [] false tick hlen
  refine ⟨t, ?_⟩
  simp only [fixLoop, ht]
  simp

theorem define_closed (env : Env) (choice : Nat → Nat) (fuel : Nat) (aliasName : String)
    (v : Proto) (obj : Object) (h : defineObject env (fuel + 2) aliasName v = .ok obj)
    (hc : Closed env [(obj.Name, obj)]) :
    define env choice (fuel + 2) aliasName v = .ok [(obj.Name, obj)] := by
  obtain ⟨t, ht⟩ := fixLoop_closed env choice (fuel + 2) [(obj.Name, obj)] hc
    (by simp [mapKeys]) (fuel + 1) true 0
  simp only [define, h]
  show (match fixLoop env choice (fuel + 2) (fuel + 1 + 1)
      { objMap := [(obj.Name, obj)], dirty := true, tick := 0 } with
    | .error e => Except.error e
    | .ok st => Except.ok st.objMap) = _
  rw [ht]

/-! ## Helper lemmas for the claims -/

theorem defineFields_selfInline (child : GoType → Except Err Object) (v : Proto)
    (h : child (.ptr "" "" (.struct 0)) = .error .outOfFuel) :
    defineFields selfInlineEnv child v 0 (selfInlineEnv.decl 0).Fields (none, [])
      = .error .outOfFuel := by
  show (match (match child (.ptr "" "" (.struct 0)) with
          | .error e => Except.error e
          | .ok c => Except.ok ((none : Option (List String)), mergeProperties [] c.Properties)) with
        | .error e => Except.error e
        | .ok acc1 => defineFields selfInlineEnv child v 1 [] acc1) = _
  rw [h]

theorem defineObject_selfInline (n : Nat) : ∀ (name : String) (v : Proto),
    (v = .type (.ptr "" "" (.struct 0)) ∨ v = .value (.struct 0) []) →
    defineObject selfInlineEnv n name v = .error .outOfFuel := by
  induction n with
  | zero => intro name v _; rfl
  | succ n ih =>
    intro name v hv
    have hf := defineFields_selfInline (fun ft => defineObject selfInlineEnv n "" (.type ft)) v
      (ih "" _ (Or.inl rfl))
    rcases hv with rfl | rfl
    · show (match defineFields selfInlineEnv (fun ft => defineObject selfInlineEnv n "" (.type ft))
              _ 0 (selfInlineEnv.decl 0).Fields (none, []) with
            | .error e => Except.error e
            | .ok (required, properties) => _) = _
      rw [hf]
    · show (match defineFields selfInlineEnv (fun ft => defineObject selfInlineEnv n "" (.type ft))
              _ 0 (selfInlineEnv.decl 0).Fields (none, []) with
            | .error e => Except.error e
            | .ok (required, properties) => _) = _
      rw [hf]

theorem keyedByType_step (env : Env) (fuel : Nat) :
    StepInvariant env fuel (KeyedByType env) := by
  intro m id child hm hnone hchild
  obtain ⟨t0, ht0, -, hgt, hcase⟩ := defineObject_ok env fuel "" _ child hchild
  simp only [protoType, Option.some.injEq] at ht0
  subst ht0
  have hgt2 : child.GoType = .struct id := by rw [hgt]; rfl
  have hname : child.Name = makeName env (.struct id) := by
    rcases hcase with ⟨id2, _, _, hn⟩ | ⟨hne, _⟩
    · rw [hn, hgt2]; simp
    · exact absurd hgt2 (hne id)
  have hfresh : child.Name ∉ mapKeys m := by
    rw [hname]; exact (mapGet_eq_none_iff m _).mp hnone
  rw [mapSet_of_not_mem m _ _ hfresh]
  refine ⟨?_, ?_⟩
  · rw [List.map_append, List.nodup_append]
    refine ⟨hm.1, by simp, ?_⟩
    intro t ht1 ht2
    simp only [List.map_cons, List.map_nil, List.mem_singleton] at ht2
    obtain ⟨e, he, het⟩ := List.mem_map.mp ht1
    have hk : e.1 = makeName env e.2.GoType := hm.2 e he id (by rw [het, ht2, hgt2])
    apply hfresh
    rw [hname, ← hgt2, ← ht2, ← het, ← hk]
    exact List.mem_map.mpr ⟨e, he, rfl⟩
  · intro e he id2 hid2
    rcases List.mem_append.mp he with he | he
    · exact hm.2 e he id2 hid2
    · simp only [List.mem_singleton] at he
      subst he
      simp only [hname, hgt2]

theorem inspect_leaf_tag (env : Env) (k : LeafKind) (a b tag : String)
    (h : strContains tag ",string" = false) :
    (inspect env (.leaf k a b) tag).Typ = (inspect env (.leaf k a b) "").Typ ∧
    (inspect env (.leaf k a b) tag).Format = (inspect env (.leaf k a b) "").Format := by
  have h0 : strContains "" ",string" = false := rfl
  cases k <;> simp [inspect, h, h0]

theorem define_leaf (env : Env) (choice : Nat → Nat) (fuel : Nat) (aliasName : String)
    (k : LeafKind) (a b : String) (dyn : List (Option GoType)) :
    define env choice (fuel + 2) aliasName (.value (.leaf k a b) dyn) =
      .ok [(kindString k.toKind,
            { IsArray := false, GoType := .leaf k a b,
              Typ := (inspect env (.leaf k a b) "").Typ,
              Format := (inspect env (.leaf k a b) "").Format,
              Name := kindString k.toKind, Required := none, Properties := [] })] := by
  have hobj : defineObject env (fuel + 2) aliasName (.value (.leaf k a b) dyn) =
      .ok { IsArray := false, GoType := .leaf k a b,
            Typ := (inspect env (.leaf k a b) "").Typ,
            Format := (inspect env (.leaf k a b) "").Format,
            Name := kindString k.toKind, Required := none, Properties := [] } := by
    cases k <;> rfl
  refine define_closed env choice fuel aliasName _ _ hobj ?_
  intro e he p hp
  simp only [List.mem_singleton] at he
  subst he
  simp at hp

/-- A field of a kind that `inspect` has no case for gets the property with
every field but `GoType` empty. -/
theorem inspect_unrecognised_kind (env : Env) (k : LeafKind) (a b tag : String)
    (h : strContains tag ",string" = false)
    (hk : k ∈ [LeafKind.Uint, LeafKind.Uintptr, LeafKind.Complex64, LeafKind.Complex128,
      LeafKind.Array, LeafKind.Chan, LeafKind.Func, LeafKind.Interface, LeafKind.Map,
      LeafKind.UnsafePointer]) :
    inspect env (.leaf k a b) tag = { GoType := .leaf k a b } := by
  cases k <;> simp [inspect, h] at hk ⊢

theorem dropWhile_append_singleton {α : Type} (p : α → Bool) (a : α) (hp : p a = false) :
    ∀ xs : List α, (xs ++ [a]).dropWhile p = xs.dropWhile p ++ [a] := by
  intro xs
  induction xs with
  | nil => simp [List.dropWhile, hp]
  | cons x xs ih =>
    cases hx : p x
    · simp [List.dropWhile, hx]
    · simp [List.dropWhile, hx, ih]

theorem trimRight_cons {α : Type} (p : α → Bool) (a : α) (hp : p a = false) (l : List α) :
    ((a :: l).reverse.dropWhile p).reverse = a :: (l.reverse.dropWhile p).reverse := by
  rw [List.reverse_cons, dropWhile_append_singleton p a hp, List.reverse_append]
  rfl

theorem firstSegment_trim_dash (json : String) (h : firstSegment json = "-") :
    strTrimSpace json ≠ "" ∧ strHasPrefix (strTrimSpace json) "," = false ∧
      firstSegment (firstSegment (strTrimSpace json)) = "-" := by
  obtain ⟨l⟩ := json
  have h1 : l.takeWhile (fun c => c != ',') = ['-'] := by
    have := congrArg String.data h
    simpa [firstSegment] using this
  cases l with
  | nil => simp at h1
  | cons c rest =>
    have hc : c = '-' := by
      by_cases hcc : (c != ',') = true
      · simp [List.takeWhile, hcc] at h1; exact h1.1
      · simp [List.takeWhile, hcc] at h1
    subst hc
    have hrest : rest.takeWhile (fun c => c != ',') = [] := by
      simpa [List.takeWhile] using h1
    have hsp : isSpace '-' = false := by decide
    have htrim : (strTrimSpace ⟨'-' :: rest⟩).data
        = '-' :: (rest.reverse.dropWhile isSpace).reverse := by
      simp only [strTrimSpace, List.dropWhile, hsp]
      exact trimRight_cons isSpace '-' hsp rest
    have hseg : ((rest.reverse.dropWhile isSpace).reverse).takeWhile (fun c => c != ',') = [] := by
      cases rest with
      | nil => rfl
      | cons d r =>
        have hd : d = ',' := by
          by_cases hdd : (d != ',') = true
          · simp [List.takeWhile, hdd] at hrest
          · simpa using hdd
        subst hd
        rw [trimRight_cons isSpace ',' (by decide) r]
        simp [List.takeWhile]
    refine ⟨?_, ?_, ?_⟩
    · intro he
      have := congrArg String.data he
      rw [htrim] at this
      simp at this
    · simp only [strHasPrefix, htrim]
      simp [List.isPrefixOf]
    · apply String.ext
      simp only [firstSegment, htrim]
      simp [List.takeWhile, hseg]

/-- An exported field whose first json segment is `-` and whose type can be
read leaves `required` and `properties` as they were, whatever its other
tags. -/
theorem defineField_ignored (env : Env) (child : GoType → Except Err Object) (v : Proto)
    (i : Nat) (field : StructField) (acc : FieldAcc) (ft : GoType)
    (hname : lowerFirstByteUnchanged field.Name = some false)
    (hft : fieldType v i field = .ok ft)
    (hseg : firstSegment field.json = "-") :
    defineField env child v i field acc = .ok acc := by
  obtain ⟨h1, h2, h3⟩ := firstSegment_trim_dash field.json hseg
  simp [defineField, hname, hft, h1, h2, addField, h3]

/-! ## The claims -/

/-- C1 (evaluation at the failing input). For the struct `A { Self *A }` whose
field is tagged `json:",inline"`, `defineObject` and `define` never return:
whatever the fuel (the recursion depth allowed) and whatever the order of the
ranges, the evaluation uses all its fuel inside the recursion through the
inlined field. -/
theorem C1_self_inlined_struct_never_returns :
    ∀ (choice : Nat → Nat) (fuel : Nat),
      defineObject selfInlineEnv fuel "" (.value (.struct 0) []) = .error .outOfFuel ∧
      define selfInlineEnv choice fuel "" (.value (.struct 0) []) = .error .outOfFuel := by
  intro choice fuel
  have h := defineObject_selfInline fuel "" (.value (.struct 0) []) (Or.inr rfl)
  refine ⟨h, ?_⟩
  simp only [define, h]

/-- C2 (evaluation at the failing input). For the struct `T { P *int }`, in any
order of the ranges and with any fuel of at least two, `define` returns the
registry whose only key is `mainT`; its property `P` has the non-empty
`Ref` `#/definitions/int`, which is `makeRef k` for no key `k` of the registry. -/
theorem C2_pointer_to_scalar_dangles :
    ∀ (choice : Nat → Nat) (fuel : Nat), ∃ obj p,
      define ptrIntEnv choice (fuel + 2) "" (.value (.struct 0) []) = .ok [("mainT", obj)] ∧
      mapGet obj.Properties "P" = some p ∧ p.Ref = "#/definitions/int" ∧
      ∀ k ∈ mapKeys [("mainT", obj)], p.Ref ≠ makeRef k := by
  intro choice fuel
  have hobj : defineObject ptrIntEnv (fuel + 2) "" (.value (.struct 0) []) =
      .ok { GoType := .struct 0, Typ := "object", Name := "mainT",
            Properties := [("P", { GoType := .leaf .Int "" "int", Ref := "#/definitions/int" })] } :=
    rfl
  refine ⟨_, _, define_closed ptrIntEnv choice fuel "" _ _ hobj ?_, rfl, rfl, ?_⟩
  · intro e he p hp id hid
    simp only [List.mem_singleton] at he
    subst he
    simp only [List.map_cons, List.map_nil, List.mem_singleton] at hp
    subst hp
    cases hid
  · intro k hk
    simp only [mapKeys, List.map_cons, List.map_nil, List.mem_singleton] at hk
    subst hk
    decide

/-- C4 (amended). For every name hint and prototype on which `defineObject`
returns an object: the object is flagged as an array exactly when the
prototype's type is a slice; `MakeSchema` returns, for a slice, the schema with
`Type` `array`, `Items.Ref = makeRef(Name)` and empty `Ref`, and otherwise the
schema with `Ref = makeRef(Name)`, empty `Type` and nil `Items`; and whenever
`define` returns a registry, that `Name` is one of its keys. -/
theorem C4_MakeSchema_references_root (env : Env) (fuel : Nat) (name : String) (v : Proto)
    (obj : Object) (h : defineObject env fuel name v = .ok obj) :
    (∃ t0, protoType v = some t0 ∧ (obj.IsArray = true ↔ t0.Kind = Kind.Slice)) ∧
    MakeSchema env fuel name v = .ok
      (if obj.IsArray then
        { Prototype := v, TypeAlias := name, Typ := "array",
          Items := some { Typ := "", Format := "", Ref := makeRef obj.Name }, Ref := "" }
       else
        { Prototype := v, TypeAlias := name, Typ := "", Items := none,
          Ref := makeRef obj.Name }) ∧
    ∀ (choice : Nat → Nat) (reg : Registry),
      define env choice fuel name v = .ok reg → obj.Name ∈ mapKeys reg := by
  refine ⟨?_, ?_, ?_⟩
  · obtain ⟨t0, ht0, harr, -⟩ := defineObject_ok env fuel name v obj h
    exact ⟨t0, ht0, by simp [harr]⟩
  · simp only [MakeSchema, h]
    split <;> rfl
  · intro choice reg hreg
    refine define_preserves env choice fuel (fun m => obj.Name ∈ mapKeys m) ?_ name v reg ?_ hreg
    · intro m id child hm _ _
      exact mapKeys_mapSet_subset m _ _ _ hm
    · intro obj2 h2
      rw [h] at h2
      cases h2
      simp [mapKeys]

/-- C4 (counterexample). On the untyped nil prototype `MakeSchema` returns no
schema, whatever the fuel: `reflect.TypeOf(nil)` is nil and `t.Kind()` panics. -/
theorem C4_counterexample :
    ¬ ∃ (fuel : Nat) (s : Schema), MakeSchema [] fuel "" Proto.nil = .ok s := by
  rintro ⟨fuel, s, h⟩
  cases fuel <;> simp [MakeSchema, defineObject, protoType] at h

/-- C4 (witness). For the prototype `[]*Person` and the hint `People`,
`defineObject` returns an array-flagged object named `People` and `MakeSchema`
the array schema whose items refer to `#/definitions/People`. -/
theorem C4_witness :
    defineObject apiResponseEnv 1 "People" (.value (.slice "" "" (.ptr "" "" (.struct 1))) []) =
        .ok { IsArray := true, GoType := .struct 1, Typ := "object", Name := "People",
              Properties := [("First", { GoType := .leaf .String "" "string", Typ := "string" })] } ∧
      MakeSchema apiResponseEnv 1 "People" (.value (.slice "" "" (.ptr "" "" (.struct 1))) []) =
        .ok { Prototype := .value (.slice "" "" (.ptr "" "" (.struct 1))) [], TypeAlias := "People",
              Typ := "array", Items := some { Ref := "#/definitions/People" } } :=
  ⟨rfl, (C4_MakeSchema_references_root apiResponseEnv 1 "People"
    (.value (.slice "" "" (.ptr "" "" (.struct 1))) []) _ rfl).2.1⟩

/-- C5 (evaluation at the failing input). `define` panics, with any fuel and
any order of the ranges, on `APIResponse{}` (the interface-typed field `Data`
holds no value), on a pointer to an `APIResponse` whose `Data` holds a `Person`,
and on the type descriptor of `APIResponse`. -/
theorem C5_unresolvable_interface_field_panics :
    ∀ (choice : Nat → Nat) (fuel : Nat),
      define apiResponseEnv choice (fuel + 1) "" (.value (.struct 0) [none, none, none])
        = .error .goPanic ∧
      define apiResponseEnv choice (fuel + 1) ""
          (.value (.ptr "" "" (.struct 0)) [none, none, some (.struct 1)])
        = .error .goPanic ∧
      define apiResponseEnv choice (fuel + 1) "" (.type (.struct 0)) = .error .goPanic :=
  fun _ _ => ⟨rfl, rfl, rfl⟩

/-- C6. For every type and every tag that does not contain `,string`, `inspect`
gives `integer`/`int32` for the kinds Int8, Int16, Int32, Uint8, Uint16 and
Uint32, `integer`/`int64` for Int64 and Uint64, `number`/`float` for Float32
and `number`/`double` for Float64; and `define` on a bare value of such a
kind returns, with any hint, any order of the ranges and any fuel of at least
two, the registry whose one object, keyed by the kind's name, has that `Type`
and `Format`. -/
theorem C6_numeric_kinds_type_and_format (env : Env) (t : GoType) (tag : String)
    (h : strContains tag ",string" = false) :
    (t.Kind ∈ [Kind.Int8, Kind.Int16, Kind.Int32, Kind.Uint8, Kind.Uint16, Kind.Uint32] →
      (inspect env t tag).Typ = "integer" ∧ (inspect env t tag).Format = "int32") ∧
    (t.Kind ∈ [Kind.Int64, Kind.Uint64] →
      (inspect env t tag).Typ = "integer" ∧ (inspect env t tag).Format = "int64") ∧
    (t.Kind = Kind.Float32 →
      (inspect env t tag).Typ = "number" ∧ (inspect env t tag).Format = "float") ∧
    (t.Kind = Kind.Float64 →
      (inspect env t tag).Typ = "number" ∧ (inspect env t tag).Format = "double") ∧
    (t.Kind ∈ [Kind.Int8, Kind.Int16, Kind.Int32, Kind.Uint8, Kind.Uint16, Kind.Uint32,
        Kind.Int64, Kind.Uint64, Kind.Float32, Kind.Float64] →
      ∀ (choice : Nat → Nat) (fuel : Nat) (aliasName : String) (dyn : List (Option GoType)),
        define env choice (fuel + 2) aliasName (.value t dyn) =
          .ok [(kindString t.Kind,
                { IsArray := false, GoType := t, Typ := (inspect env t tag).Typ,
                  Format := (inspect env t tag).Format, Name := kindString t.Kind,
                  Required := none, Properties := [] })]) := by
  cases t with
  | leaf k a b =>
    refine ⟨?_, ?_, ?_, ?_, ?_⟩
    · cases k <;> simp [inspect, h, GoType.Kind, LeafKind.toKind]
    · cases k <;> simp [inspect, h, GoType.Kind, LeafKind.toKind]
    · cases k <;> simp [inspect, h, GoType.Kind, LeafKind.toKind]
    · cases k <;> simp [inspect, h, GoType.Kind, LeafKind.toKind]
    · intro _ choice fuel aliasName dyn
      rw [(inspect_leaf_tag env k a b tag h).1, (inspect_leaf_tag env k a b tag h).2]
      exact define_leaf env choice fuel aliasName k a b dyn
  | ptr a b e => simp [GoType.Kind]
  | slice a b e => simp [GoType.Kind]
  | struct id => simp [GoType.Kind]

/-- C6 (witness). A `uint16` field tagged `count,omitempty` is an `integer`
of format `int32`. -/
theorem C6_witness :
    strContains "count,omitempty" ",string" = false ∧
      (inspect [] (.leaf .Uint16 "" "uint16") "count,omitempty").Typ = "integer" ∧
      (inspect [] (.leaf .Uint16 "" "uint16") "count,omitempty").Format = "int32" :=
  ⟨rfl, (C6_numeric_kinds_type_and_format [] (.leaf .Uint16 "" "uint16") "count,omitempty"
    rfl).1 (by simp [GoType.Kind, LeafKind.toKind])⟩

/-- C7. For every type, of any kind, and every tag that contains `,string`,
`inspect` returns the property with `Type` `string`, empty `Format`, empty
`Ref` and nil `Items` (and the type itself as `GoType`). -/
theorem C7_string_option_forces_string (env : Env) (t : GoType) (tag : String)
    (h : strContains tag ",string" = true) :
    inspect env t tag = { GoType := t, Typ := "string", Format := "", Description := "",
                          Ref := "", Items := none } := by
  simp [inspect, h]

/-- C7 (witness). An `int64` field tagged `id,string` is a `string`. -/
theorem C7_witness :
    strContains "id,string" ",string" = true ∧
      inspect [] (.leaf .Int64 "" "int64") "id,string" =
        { GoType := .leaf .Int64 "" "int64", Typ := "string" } :=
  ⟨rfl, C7_string_option_forces_string [] (.leaf .Int64 "" "int64") "id,string" rfl⟩

/-- C8 (evaluation at the failing input). For the kind Uint and the empty tag,
`inspect` leaves `Type` and `Format` empty, and for a slice of `uint` the
`Items` fragment has no type either. -/
theorem C8_uint_gets_no_type :
    (inspect [] (.leaf .Uint "" "uint") "").Typ = "" ∧
      (inspect [] (.leaf .Uint "" "uint") "").Format = "" ∧
      (inspect [] (.slice "" "" (.leaf .Uint "" "uint")) "").Items = some {} :=
  ⟨rfl, rfl, rfl⟩

/-- C9 (evaluation at the failing inputs). On the zero value of
`Test { Exported interface{}; unexported string }` `defineObject` panics, so
the exported field gets no property; and for
`Accents { Exported string; été string }` the keys of `Properties` are
`Exported` and the unexported `été`. -/
theorem C9_field_visibility_failures :
    (∀ fuel, defineObject visibilityEnv (fuel + 1) "" (.value (.struct 0) [none, none])
        = .error .goPanic) ∧
    (∀ fuel, (defineObject visibilityEnv (fuel + 1) "" (.value (.struct 1) [])).map
        (fun obj => mapKeys obj.Properties) = .ok ["Exported", "été"]) :=
  ⟨fun _ => rfl, fun _ => rfl⟩

/-- C10 (evaluation at the failing input). On the zero value of
`Empty { Nope interface{} }` with `Nope` tagged `json:"-"`, `defineObject`
panics, whereas for the same struct without the field it returns the object
with no properties and a nil `Required`. -/
theorem C10_ignored_interface_field_panics :
    (∀ fuel, defineObject ignoredEnv (fuel + 1) "" (.value (.struct 0) [none])
        = .error .goPanic) ∧
    (∀ fuel, defineObject ignoredEnv (fuel + 1) "" (.value (.struct 1) [])
        = .ok { GoType := .struct 1, Typ := "object", Name := "mainEmpty" }) :=
  ⟨fun _ => rfl, fun _ => rfl⟩

/-! ## Further lemmas on maps, decimal strings and fields -/

theorem mapGet_mapSet_self {β : Type} (m : List (String × β)) (k : String) (v : β) :
    mapGet (mapSet m k v) k = some v := by
  induction m with
  | nil => simp [mapSet, mapGet]
  | cons e rest ih =>
    obtain ⟨k0, v0⟩ := e
    by_cases hk : k0 = k
    · simp [mapSet, mapGet, hk]
    · simp [mapSet, mapGet, hk, ih]

theorem mapGet_mapSet_of_ne {β : Type} (m : List (String × β)) (k k1 : String) (v : β)
    (h : k1 ≠ k) : mapGet (mapSet m k v) k1 = mapGet m k1 := by
  induction m with
  | nil =>
    have h2 : ¬ k = k1 := fun e => h e.symm
    simp [mapSet, mapGet, h2]
  | cons e rest ih =>
    obtain ⟨k0, v0⟩ := e
    by_cases hk : k0 = k
    · subst hk
      have h2 : ¬ k0 = k1 := fun e => h e.symm
      simp [mapSet, mapGet, h2]
    · by_cases hk1 : k0 = k1
      · subst hk1
        simp [mapSet, mapGet, hk]
      · simp [mapSet, mapGet, hk, hk1, ih]

theorem mem_mapKeys_mapSet {β : Type} (m : List (String × β)) (k k1 : String) (v : β) :
    k1 ∈ mapKeys (mapSet m k v) ↔ k1 ∈ mapKeys m ∨ k1 = k := by
  induction m with
  | nil => simp [mapSet, mapKeys]
  | cons e rest ih =>
    obtain ⟨k0, v0⟩ := e
    by_cases hk : k0 = k
    · subst hk
      simp only [mapSet, if_true, mapKeys, List.map_cons, List.mem_cons]
      tauto
    · simp only [mapSet, hk, if_false, mapKeys, List.map_cons, List.mem_cons] at ih ⊢
      rw [ih]
      tauto

theorem nodup_mapKeys_mapSet {β : Type} (m : List (String × β)) (k : String) (v : β)
    (h : (mapKeys m).Nodup) : (mapKeys (mapSet m k v)).Nodup := by
  induction m with
  | nil => simp [mapSet, mapKeys]
  | cons e rest ih =>
    obtain ⟨k0, v0⟩ := e
    simp only [mapKeys, List.map_cons, List.nodup_cons] at h
    by_cases hk : k0 = k
    · subst hk
      simp only [mapSet, if_true, mapKeys, List.map_cons, List.nodup_cons]
      exact h
    · simp only [mapSet, hk, if_false, mapKeys, List.map_cons, List.nodup_cons]
      refine ⟨?_, ih h.2⟩
      intro hmem
      rcases (mem_mapKeys_mapSet rest k k0 v).mp hmem with h1 | h1
      · exact h.1 h1
      · exact hk h1

theorem decimalDigits_value (fuel : Nat) :
    ∀ (n : Nat) (acc : List Nat), n < fuel →
      (decimalDigits fuel n acc).foldl (fun a d => 10 * a + d) 0
        = acc.foldl (fun a d => 10 * a + d) n := by
  induction fuel with
  | zero => intro n acc h; omega
  | succ f ih =>
    intro n acc h
    simp only [decimalDigits]
    split
    · simp [List.foldl]
    · rename_i hn
      rw [ih (n / 10) _ (by omega)]
      simp only [List.foldl]
      congr 1
      omega

theorem decimalDigits_lt (fuel : Nat) :
    ∀ (n : Nat) (acc : List Nat), n < fuel → (∀ d ∈ acc, d < 10) →
      ∀ d ∈ decimalDigits fuel n acc, d < 10 := by
  induction fuel with
  | zero => intro n acc h; omega
  | succ f ih =>
    intro n acc h hacc
    simp only [decimalDigits]
    split
    · rename_i hn
      intro d hd
      rcases List.mem_cons.mp hd with rfl | hd
      · exact hn
      · exact hacc d hd
    · apply ih (n / 10) _ (by omega)
      intro d hd
      rcases List.mem_cons.mp hd with rfl | hd
      · omega
      · exact hacc d hd

theorem digitChar_toNat (d : Nat) (h : d < 10) : (digitChar d).toNat = 48 + d := by
  interval_cases d <;> rfl

theorem digitChar_ne_minus (d : Nat) (h : d < 10) : digitChar d ≠ '-' := by
  interval_cases d <;> decide

theorem map_digitChar_injective :
    ∀ (l1 l2 : List Nat), (∀ d ∈ l1, d < 10) → (∀ d ∈ l2, d < 10) →
      l1.map digitChar = l2.map digitChar → l1 = l2 := by
  intro l1
  induction l1 with
  | nil => intro l2 _ _ h; cases l2 with
    | nil => rfl
    | cons b l2 => simp at h
  | cons a l1 ih =>
    intro l2 h1 h2 h
    cases l2 with
    | nil => simp at h
    | cons b l2 =>
      simp only [List.map_cons, List.cons.injEq] at h
      have ha := digitChar_toNat a (h1 a (List.mem_cons_self _ _))
      have hb := digitChar_toNat b (h2 b (List.mem_cons_self _ _))
      rw [h.1] at ha
      have hab : a = b := by omega
      rw [hab, ih l2 (fun d hd => h1 d (List.mem_cons_of_mem _ hd))
        (fun d hd => h2 d (List.mem_cons_of_mem _ hd)) h.2]

theorem decimalDigits_injective (m n : Nat)
    (h : decimalDigits (m + 1) m [] = decimalDigits (n + 1) n []) : m = n := by
  have hm := decimalDigits_value (m + 1) m [] (by omega)
  have hn := decimalDigits_value (n + 1) n [] (by omega)
  rw [h, hn] at hm
  simpa using hm.symm

theorem decimalDigits_ne_nil (fuel n : Nat) (acc : List Nat) (h : n < fuel) :
    decimalDigits fuel n acc ≠ [] := by
  induction fuel generalizing n acc with
  | zero => omega
  | succ f ih =>
    simp only [decimalDigits]
    split
    · simp
    · exact ih (n / 10) _ (by omega)

/-- Two different integers have different decimal texts. -/
theorem Itoa_injective (a b : Int) (h : Itoa a = Itoa b) : a = b := by
  have hd : ∀ n : Nat, ∀ d ∈ decimalDigits (n + 1) n [], d < 10 :=
    fun n => decimalDigits_lt (n + 1) n [] (by omega) (by simp)
  cases a with
  | ofNat m =>
    cases b with
    | ofNat n =>
      have h1 := congrArg String.data h
      simp only [Itoa] at h1
      have := map_digitChar_injective _ _ (hd m) (hd n) h1
      rw [decimalDigits_injective m n this]
    | negSucc n =>
      have h1 := congrArg String.data h
      simp only [Itoa] at h1
      cases hl : decimalDigits (m + 1) m [] with
      | nil => exact absurd hl (decimalDigits_ne_nil _ _ _ (by omega))
      | cons d l =>
        rw [hl] at h1
        simp only [List.map_cons, List.cons.injEq] at h1
        have := hd m d (by rw [hl]; exact List.mem_cons_self _ _)
        exact absurd h1.1 (digitChar_ne_minus d this)
  | negSucc m =>
    cases b with
    | ofNat n =>
      have h1 := congrArg String.data h
      simp only [Itoa] at h1
      cases hl : decimalDigits (n + 1) n [] with
      | nil => exact absurd hl (decimalDigits_ne_nil _ _ _ (by omega))
      | cons d l =>
        rw [hl] at h1
        simp only [List.map_cons, List.cons.injEq] at h1
        have := hd n d (by rw [hl]; exact List.mem_cons_self _ _)
        exact absurd h1.1.symm (digitChar_ne_minus d this)
    | negSucc n =>
      have h1 := congrArg String.data h
      simp only [Itoa, List.cons.injEq, true_and] at h1
      have := map_digitChar_injective _ _ (hd (m + 1)) (hd (n + 1)) h1
      have := decimalDigits_injective (m + 1) (n + 1) this
      have : m = n := by omega
      rw [this]

theorem defineField_eq (env : Env) (child : GoType → Except Err Object) (v : Proto)
    (i : Nat) (field : StructField) (acc : FieldAcc) (ft : GoType)
    (hname : lowerFirstByteUnchanged field.Name = some false)
    (hft : fieldType v i field = .ok ft) :
    defineField env child v i field acc =
      if isInlined field then
        (match child ft with
         | .error e => .error e
         | .ok c => .ok (acc.1, mergeProperties acc.2 c.Properties))
      else if externalName field = "-" then .ok acc
      else .ok (if field.required = "true" then appendRequired acc.1 (externalName field)
                  else acc.1,
                mapSet acc.2 (externalName field)
                  { inspect env ft field.json with Description := field.desc }) := by
  simp only [defineField, hname, hft, isInlined, externalName, addField]
  by_cases h1 : strTrimSpace field.json = "" ∨ strHasPrefix (strTrimSpace field.json) "," = true
  · by_cases h2 : strContains (strTrimSpace field.json) "inline" = true
    · simp only [h1, h2, if_true, decide_True, Bool.and_self]
    · simp only [h1, h2, if_true, decide_True, Bool.true_and, if_false]
      split_ifs <;> rfl
  · simp only [h1, if_false, decide_False, Bool.false_and]
    split_ifs <;> first | rfl | simp_all

theorem fieldType_interface_value (id i : Nat) (dyn : List (Option GoType))
    (field : StructField) (d : GoType) (hk : field.Typ.Kind = Kind.Interface)
    (hd : dyn.getD i none = some d) :
    fieldType (.value (.struct id) dyn) i field = .ok d := by
  unfold fieldType
  rw [if_pos hk]
  simp only [hd]

theorem fieldType_declared (v : Proto) (i : Nat) (field : StructField)
    (hk : field.Typ.Kind ≠ Kind.Interface) :
    fieldType v i field = .ok field.Typ := by
  unfold fieldType
  rw [if_neg hk]

/-- The property `inspect` gives a struct or a pointer to a struct when the
tag does not force a string. -/
theorem inspect_struct_or_ptr (env : Env) (X : Nat) (d : GoType) (tag : String)
    (hd : d = .struct X ∨ ∃ p n, d = .ptr p n (.struct X))
    (htag : strContains tag ",string" = false) :
    inspect env d tag =
      { GoType := .struct X, Ref := makeRef (makeName env (.struct X)) } := by
  rcases hd with rfl | ⟨p, n, rfl⟩ <;> simp [inspect, htag]

theorem foldl_appendRequired_some (l0 l : List String) :
    l.foldl appendRequired (some l0) = some (l0 ++ l) := by
  induction l generalizing l0 with
  | nil => simp
  | cons a l ih => simp [List.foldl, appendRequired, ih]

theorem foldl_appendRequired_none (l : List String) :
    l.foldl appendRequired none = nilIfEmpty l := by
  cases l with
  | nil => rfl
  | cons a l => simp [List.foldl, appendRequired, foldl_appendRequired_some, nilIfEmpty]

/-- The required list after the field loop: the names of the required fields
are appended, in declaration order, to the list the loop started with. -/
theorem defineFields_required (env : Env) (child : GoType → Except Err Object) (v : Proto)
    (fields : List StructField) :
    ∀ (i : Nat) (acc acc1 : FieldAcc), defineFields env child v i fields acc = .ok acc1 →
      acc1.1 = ((fields.filter isRequiredField).map externalName).foldl appendRequired acc.1 := by
  induction fields with
  | nil => intro i acc acc1 h; simp only [defineFields] at h; cases h; rfl
  | cons f rest ih =>
    intro i acc acc1 h
    simp only [defineFields] at h
    cases hf : defineField env child v i f acc with
    | error e => simp [hf] at h
    | ok acc2 =>
      simp only [hf] at h
      rw [ih (i + 1) acc2 acc1 h]
      have key : ((List.filter isRequiredField (f :: rest)).map externalName).foldl
            appendRequired acc.1 =
          ((List.filter isRequiredField rest).map externalName).foldl appendRequired acc2.1 := by
        cases hl : lowerFirstByteUnchanged f.Name with
        | none => simp [defineField, hl] at hf
        | some b =>
          cases b with
          | true =>
            simp only [defineField, hl] at hf
            cases hf
            simp [List.filter_cons, isRequiredField, hl]
          | false =>
            cases hft : fieldType v i f with
            | error e => simp [defineField, hl, hft] at hf
            | ok ft =>
              rw [defineField_eq env child v i f acc ft hl hft] at hf
              by_cases hin : isInlined f = true
              · simp only [hin, if_true] at hf
                cases hc : child ft with
                | error e => simp [hc] at hf
                | ok c =>
                  simp only [hc] at hf
                  cases hf
                  simp [List.filter_cons, isRequiredField, hin]
              · simp only [hin, if_false] at hf
                by_cases hd : externalName f = "-"
                · simp only [hd, if_true] at hf
                  cases hf
                  simp [List.filter_cons, isRequiredField, hd]
                · simp only [hd, if_false] at hf
                  cases hf
                  by_cases hr : f.required = "true"
                  · simp [List.filter_cons, isRequiredField, hl, hin, hd, hr]
                  · simp [List.filter_cons, isRequiredField, hr]
      exact key.symm

/-- Whenever `defineObject` returns an object for a struct, its `Required` is
the list of the external names of the required fields, nil when there is
none. -/
theorem defineObject_required (env : Env) (fuel : Nat) (name : String) (v : Proto)
    (obj : Object) (id : Nat) (h : defineObject env fuel name v = .ok obj)
    (hid : obj.GoType = .struct id) :
    obj.Required = requiredNames (env.decl id).Fields := by
  cases fuel with
  | zero => simp [defineObject] at h
  | succ n =>
    simp only [defineObject] at h
    cases hv : protoType v with
    | none => simp [hv] at h
    | some t0 =>
      simp only [hv] at h
      cases ht : unwrapped t0 with
      | struct id2 =>
        simp only [unwrapped] at ht
        simp only [ht] at h
        split at h
        · cases h
        · rename_i required properties hfs
          cases h
          simp only at hid
          cases hid
          have := defineFields_required env _ v _ 0 (none, []) (required, properties) hfs
          simp only at this
          rw [this, foldl_appendRequired_none]
          rfl
      | leaf k a b =>
        simp only [unwrapped] at ht
        simp only [ht] at h
        cases h
        cases hid
      | ptr a b e =>
        simp only [unwrapped] at ht
        simp only [ht] at h
        cases h
        cases hid
      | slice a b e =>
        simp only [unwrapped] at ht
        simp only [ht] at h
        cases h
        cases hid

theorem mergeProperties_keys_left (c : Properties) :
    ∀ (m : Properties) (k : String), k ∈ mapKeys m → k ∈ mapKeys (mergeProperties m c) := by
  induction c with
  | nil => intro m k h; exact h
  | cons kv c ih =>
    intro m k h
    exact ih _ k (mapKeys_mapSet_subset m kv.1 k kv.2 h)

/-- Every key of the inlined child is a key after the merge. -/
theorem mergeProperties_keys_right (c : Properties) :
    ∀ (m : Properties) (k : String), k ∈ mapKeys c → k ∈ mapKeys (mergeProperties m c) := by
  induction c with
  | nil => intro m k h; simp [mapKeys] at h
  | cons kv c ih =>
    intro m k h
    simp only [mapKeys, List.map_cons, List.mem_cons] at h
    rcases h with rfl | h
    · exact mergeProperties_keys_left c _ _
        ((mem_mapKeys_mapSet m kv.1 kv.1 kv.2).mpr (Or.inr rfl))
    · exact ih _ k h

theorem defineObject_scalar (env : Env) (fuel : Nat) (aliasName : String) (v : Proto)
    (t0 : GoType) (hv : protoType v = some t0) (hs : ∀ id, unwrapped t0 ≠ .struct id) :
    defineObject env (fuel + 1) aliasName v =
      .ok { IsArray := decide (t0.Kind = Kind.Slice), GoType := unwrapped t0,
            Typ := (inspect env (unwrapped t0) "").Typ,
            Format := (inspect env (unwrapped t0) "").Format,
            Name := kindString (unwrapped t0).Kind, Required := none, Properties := [] } := by
  simp only [defineObject, hv]
  cases ht : unwrapped t0 with
  | struct id => exact absurd ht (hs id)
  | leaf k a b => simp only [unwrapped] at ht; simp only [ht]
  | ptr a b e => simp only [unwrapped] at ht; simp only [ht]
  | slice a b e => simp only [unwrapped] at ht; simp only [ht]

/-! ## The claims C11 to C20 -/

/-- C11 (evaluation at the failing inputs). `APIResponse{Data: Person{}}` has
the property keys `code`, `message` and `data`, but on `Wrapper`, whose only
field is an `APIResponse` tagged `json:",inline"`, `defineObject` panics, with
any fuel of at least two; `Person` has the key `First`, but on
`Outer { Inner Person; Extra interface{} }` with `Inner` inlined and `Extra`
nil, `defineObject` panics too. -/
theorem C11_inlined_struct_failures :
    (∀ fuel, (defineObject inlineEnv (fuel + 1) ""
        (.value (.struct 1) [none, none, some (.struct 2)])).map
          (fun obj => mapKeys obj.Properties) = .ok ["code", "message", "data"]) ∧
    (∀ fuel, defineObject inlineEnv (fuel + 2) "" (.value (.struct 0) [])
        = .error .goPanic) ∧
    (∀ fuel, (defineObject inlineEnv (fuel + 1) "" (.type (.struct 2))).map
          (fun obj => mapKeys obj.Properties) = .ok ["First"]) ∧
    (∀ fuel, defineObject inlineEnv (fuel + 2) "" (.value (.struct 3) [none, none])
        = .error .goPanic) :=
  ⟨fun _ => rfl, fun _ => rfl, fun _ => rfl, fun _ => rfl⟩

/-- C13 (evaluation at the failing inputs). For `Accent { été string }` with
the field tagged `required:"true"`, `Required` is the list holding the
unexported `été`; and on the zero value of `Holder { A interface{} }` with `A`
tagged `required:"true"`, `defineObject` panics instead of listing `A`. -/
theorem C13_required_list_failures :
    (∀ fuel, (defineObject requiredEnv (fuel + 1) "" (.value (.struct 0) [])).map
        (fun obj => obj.Required) = .ok (some ["été"])) ∧
    (∀ fuel, defineObject requiredEnv (fuel + 1) "" (.value (.struct 1) [none])
        = .error .goPanic) :=
  ⟨fun _ => rfl, fun _ => rfl⟩

/-- C14. For every prototype that has a type whose unwrapped type (at most one
slice level, then at most one pointer level removed) is not a struct, and for
every name hint, every order of the ranges and every fuel of at least two,
`define` returns the registry with exactly one entry, keyed by the kind name
of the unwrapped type: no properties, nil `Required`, `Type` and `Format`
those of `inspect(unwrapped type, "")`, and `IsArray` true exactly when the
prototype's type is a slice. -/
theorem C14_scalar_prototype_single_entry (env : Env) (v : Proto) (t0 : GoType)
    (hv : protoType v = some t0) (hs : (unwrapped t0).Kind ≠ Kind.Struct) :
    ∀ (choice : Nat → Nat) (fuel : Nat) (aliasName : String),
      define env choice (fuel + 2) aliasName v =
        .ok [(kindString (unwrapped t0).Kind,
              { IsArray := decide (t0.Kind = Kind.Slice), GoType := unwrapped t0,
                Typ := (inspect env (unwrapped t0) "").Typ,
                Format := (inspect env (unwrapped t0) "").Format,
                Name := kindString (unwrapped t0).Kind, Required := none,
                Properties := [] })] := by
  intro choice fuel aliasName
  have hs2 : ∀ id, unwrapped t0 ≠ .struct id := by
    intro id h; rw [h] at hs; exact hs rfl
  have hobj := defineObject_scalar env (fuel + 1) aliasName v t0 hv hs2
  refine define_closed env choice fuel aliasName v _ hobj ?_
  intro e he p hp
  simp only [List.mem_singleton] at he
  subst he
  simp at hp

/-- C14 (witness). A `[]byte` with the hint `Bytes` gives the single
array-flagged object named `uint8` of type `integer` and format `int32`. -/
theorem C14_witness :
    define [] (fun _ => 0) 2 "Bytes" (.value (.slice "" "" (.leaf .Uint8 "" "uint8")) []) =
      .ok [("uint8", { IsArray := true, GoType := .leaf .Uint8 "" "uint8", Typ := "integer",
                       Format := "int32", Name := "uint8" })] :=
  C14_scalar_prototype_single_entry [] (.value (.slice "" "" (.leaf .Uint8 "" "uint8")) [])
    (.slice "" "" (.leaf .Uint8 "" "uint8")) rfl (by decide) (fun _ => 0) 0 "Bytes"

/-- C15 (evaluation at the failing input). For
`R { A struct{ X int }; B struct{ Y string } }` two orders of the range over
the properties of `R` give two registries with the same keys but different
definitions under the name shared by the two unnamed struct types: that of
`struct{ X int }` when `A` is visited first, that of `struct{ Y string }` when
`B` is. -/
theorem C15_registry_depends_on_range_order :
    ∃ reg1 reg2,
      define anonEnv (fun _ => 0) 4 "" (.value (.struct 0) []) = .ok reg1 ∧
      define anonEnv (fun n => if n = 1 then 1 else 0) 4 "" (.value (.struct 0) []) = .ok reg2 ∧
      mapKeys reg1 = mapKeys reg2 ∧
      makeName anonEnv (.struct 1) = makeName anonEnv (.struct 2) ∧
      (mapGet reg1 (makeName anonEnv (.struct 1))).map (fun d => d.GoType)
        = some (.struct 1) ∧
      (mapGet reg2 (makeName anonEnv (.struct 1))).map (fun d => d.GoType)
        = some (.struct 2) ∧
      reg1 ≠ reg2 :=
  ⟨_, _, rfl, rfl, rfl, rfl, rfl, rfl, by decide⟩

/-! ## The builders -/

theorem addRequirement_foldl (l : List (String × List String)) :
    ∀ (s : Option SecurityRequirement),
      l.foldl (fun s p => DocsBuilder.addRequirement s p.1 p.2) s =
        if l = [] then s
        else some { (s.getD {}) with
          Requirements := (s.getD {}).Requirements ++ l.map (fun p => [(p.1, p.2)]) } := by
  induction l with
  | nil => intro s; rfl
  | cons p l ih =>
    intro s
    simp only [List.foldl, ih]
    by_cases hl : l = []
    · subst hl
      simp [DocsBuilder.addRequirement]
    · simp [hl, DocsBuilder.addRequirement]

theorem docs_security_foldl (l : List (String × List String)) :
    ∀ (api : API),
      (l.map (fun p => DocsBuilder.ApiOption.Security p.1 p.2)).foldl
          (fun api opt => opt.apply api) api =
        { api with Security :=
            l.foldl (fun s p => DocsBuilder.addRequirement s p.1 p.2) api.Security } := by
  induction l with
  | nil => intro api; rfl
  | cons p l ih =>
    intro api
    exact ih _

theorem endpoint_security_applyOptions (env : Env) (fuel : Nat)
    (l : List (String × List String)) :
    ∀ (e : Endpoint),
      EndpointBuilder.applyOptions env fuel
          (l.map (fun p => EndpointBuilder.EndpointOption.Security p.1 p.2)) e =
        .ok { e with
              Security :=
                l.foldl (fun s p => DocsBuilder.addRequirement s p.1 p.2) e.Security } := by
  induction l with
  | nil => intro e; rfl
  | cons p l ih =>
    intro e
    exact ih _

/-- C16. For each of the setters `Description`, `Version`, `TermsOfService`,
`Title`, `ContactEmail`, `License`, `BasePath`, `Host` and `Schemes` and every
argument, `docs.New` with that single option is `New()` with no options in
which only the targeted field (for `License` the name and the URL) is replaced
by the argument; and `New()` has `BasePath` `/`, `Swagger` `2.0`, `Schemes`
`["http"]` and the default `Info`. -/
theorem C16_single_setter_frame :
    (∀ v, DocsBuilder.New [.Description v] =
      { DocsBuilder.New [] with
        Info := { (DocsBuilder.New []).Info with Description := v } }) ∧
    (∀ v, DocsBuilder.New [.Version v] =
      { DocsBuilder.New [] with Info := { (DocsBuilder.New []).Info with Version := v } }) ∧
    (∀ v, DocsBuilder.New [.TermsOfService v] =
      { DocsBuilder.New [] with
        Info := { (DocsBuilder.New []).Info with TermsOfService := v } }) ∧
    (∀ v, DocsBuilder.New [.Title v] =
      { DocsBuilder.New [] with Info := { (DocsBuilder.New []).Info with Title := v } }) ∧
    (∀ v, DocsBuilder.New [.ContactEmail v] =
      { DocsBuilder.New [] with
        Info := { (DocsBuilder.New []).Info with
          Contact := { (DocsBuilder.New []).Info.Contact with Email := v } } }) ∧
    (∀ name url, DocsBuilder.New [.License name url] =
      { DocsBuilder.New [] with
        Info := { (DocsBuilder.New []).Info with License := { Name := name, URL := url } } }) ∧
    (∀ v, DocsBuilder.New [.BasePath v] = { DocsBuilder.New [] with BasePath := v }) ∧
    (∀ v, DocsBuilder.New [.Host v] = { DocsBuilder.New [] with Host := v }) ∧
    (∀ v, DocsBuilder.New [.Schemes v] = { DocsBuilder.New [] with Schemes := v }) ∧
    DocsBuilder.New [] =
      { BasePath := "/", DocPath := "/swagger", Swagger := "2.0", Schemes := ["http"],
        Info := { Contact := { Email := "your-email-address" },
                  Description := "Describe your API", Title := "Your API Title",
                  Version := "SNAPSHOT", TermsOfService := "http://swagger.io/terms/",
                  License := { Name := "Apache 2.0",
                               URL := "http://www.apache.org/licenses/LICENSE-2.0.html" } },
        Host := "", Tags := [], Security := none } :=
  ⟨fun _ => rfl, fun _ => rfl, fun _ => rfl, fun _ => rfl, fun _ => rfl, fun _ _ => rfl,
    fun _ => rfl, fun _ => rfl, fun _ => rfl, rfl⟩

/-- C17. For every list of pairs of a scheme name and a list of scopes,
applying the `Security` options built from them in order, through `docs.New`
and through `endpoint.New` on its fresh endpoint, gives a `Security` whose
`Requirements` has one element per option, in order, the element of the pair
`(s, scopes)` being the map with the single key `s` and the value `scopes`
(and a nil `Security` when there is no option). -/
theorem C17_security_requirements_in_order (l : List (String × List String)) :
    (DocsBuilder.New (l.map (fun p => .Security p.1 p.2))).Security =
        (if l = [] then none
         else some { Requirements := l.map (fun p => [(p.1, p.2)]),
                     DisableSecurity := false }) ∧
    (∀ (lib : EndpointBuilder.StringLib) (env : Env) (fuel : Nat)
        (method path summary : String),
      ∃ e, EndpointBuilder.New lib env fuel method path summary
            (l.map (fun p => .Security p.1 p.2)) = .ok e ∧
        e.Security =
          (if l = [] then none
           else some { Requirements := l.map (fun p => [(p.1, p.2)]),
                       DisableSecurity := false })) := by
  refine ⟨?_, ?_⟩
  · simp only [DocsBuilder.New, docs_security_foldl, addRequirement_foldl]
    by_cases hl : l = []
    · simp [hl, DocsBuilder.defaultAPI]
    · simp [hl, DocsBuilder.defaultAPI]
  · intro lib env fuel method path summary
    refine ⟨_, endpoint_security_applyOptions env fuel l _, ?_⟩
    simp only [addRequirement_foldl]
    by_cases hl : l = []
    · simp [hl, EndpointBuilder.newEndpoint]
    · simp [hl, EndpointBuilder.newEndpoint]

theorem applyOptions_append (env : Env) (fuel : Nat) (l1 l2 : List EndpointBuilder.EndpointOption) :
    ∀ (e : Endpoint),
      EndpointBuilder.applyOptions env fuel (l1 ++ l2) e =
        match EndpointBuilder.applyOptions env fuel l1 e with
        | .error err => .error err
        | .ok e1 => EndpointBuilder.applyOptions env fuel l2 e1 := by
  induction l1 with
  | nil => intro e; rfl
  | cons o l1 ih =>
    intro e
    simp only [List.cons_append, EndpointBuilder.applyOptions]
    cases o.apply env fuel e with
    | error err => rfl
    | ok e1 => exact ih e1

/-- C18. Applied to any endpoint, `NoSecurity` returns the endpoint with
`Security` replaced by the requirement with `DisableSecurity` true and no
requirements; hence whatever options come before it, when they return, the
endpoint right after `NoSecurity` has that `Security`, and when one of them
panics so does the whole list. -/
theorem C18_NoSecurity_disables_security (env : Env) (fuel : Nat) :
    (∀ (e : Endpoint),
      EndpointBuilder.EndpointOption.NoSecurity.apply env fuel e =
        .ok { e with Security := some { Requirements := [], DisableSecurity := true } }) ∧
    (∀ (opts : List EndpointBuilder.EndpointOption) (e0 : Endpoint),
      EndpointBuilder.applyOptions env fuel (opts ++ [.NoSecurity]) e0 =
        match EndpointBuilder.applyOptions env fuel opts e0 with
        | .error err => .error err
        | .ok e =>
          .ok { e with Security := some { Requirements := [], DisableSecurity := true } }) := by
  refine ⟨fun _ => rfl, ?_⟩
  intro opts e0
  rw [applyOptions_append]
  cases EndpointBuilder.applyOptions env fuel opts e0 <;> rfl

namespace EndpointBuilder

/-- What one option that returns does to the endpoint. -/
theorem apply_of_returns (env : Env) (fuel : Nat) (o : EndpointOption) (e : Endpoint)
    (h : optionReturns env fuel o) :
    ∃ e1, o.apply env fuel e = .ok e1 ∧ e1.Method = e.Method ∧
      e1.Produces = producesAfter [o] e.Produces ∧
      e1.Consumes = consumesAfter [o] e.Consumes ∧
      e1.Responses =
        (match responseCode o, responseOf env fuel o with
         | some code, some r => mapSet e.Responses (Itoa code) r
         | _, _ => e.Responses) := by
  cases o with
  | BodyType t description required =>
    obtain ⟨s, hs⟩ := h
    simp only [EndpointOption.apply, hs]
    exact ⟨_, rfl, rfl, rfl, rfl, rfl⟩
  | ResponseType code t name description opts =>
    obtain ⟨s, hs⟩ := h
    simp only [EndpointOption.apply, buildResponse, hs, responseCode, responseOf]
    exact ⟨_, rfl, rfl, rfl, rfl, rfl⟩
  | Response code prototype name description opts =>
    obtain ⟨s, hs⟩ := h
    simp only [EndpointOption.apply, buildResponse, hs, responseCode, responseOf]
    exact ⟨_, rfl, rfl, rfl, rfl, rfl⟩
  | Handler handler => exact ⟨_, rfl, rfl, rfl, rfl, rfl⟩
  | Description v => exact ⟨_, rfl, rfl, rfl, rfl, rfl⟩
  | OperationID v => exact ⟨_, rfl, rfl, rfl, rfl, rfl⟩
  | Produces v => exact ⟨_, rfl, rfl, rfl, rfl, rfl⟩
  | Consumes v => exact ⟨_, rfl, rfl, rfl, rfl, rfl⟩
  | Path name typ description required => exact ⟨_, rfl, rfl, rfl, rfl, rfl⟩
  | Query name typ description required => exact ⟨_, rfl, rfl, rfl, rfl, rfl⟩
  | Tags tags => exact ⟨_, rfl, rfl, rfl, rfl, rfl⟩
  | Security scheme scopes => exact ⟨_, rfl, rfl, rfl, rfl, rfl⟩
  | NoSecurity => exact ⟨_, rfl, rfl, rfl, rfl, rfl⟩

theorem producesAfter_cons (o : EndpointOption) (rest : List EndpointOption) (d : List String) :
    producesAfter (o :: rest) d = producesAfter rest (producesAfter [o] d) := by
  cases o <;> rfl

theorem consumesAfter_cons (o : EndpointOption) (rest : List EndpointOption) (d : List String) :
    consumesAfter (o :: rest) d = consumesAfter rest (consumesAfter [o] d) := by
  cases o <;> rfl

/-- What a list of options that return does to the endpoint. -/
theorem applyOptions_of_returns (env : Env) (fuel : Nat) (opts : List EndpointOption) :
    ∀ (e : Endpoint), (∀ o ∈ opts, optionReturns env fuel o) →
      ∃ e1, applyOptions env fuel opts e = .ok e1 ∧ e1.Method = e.Method ∧
        e1.Produces = producesAfter opts e.Produces ∧
        e1.Consumes = consumesAfter opts e.Consumes ∧
        ((mapKeys e.Responses).Nodup → (mapKeys e1.Responses).Nodup) ∧
        (∀ k, k ∈ mapKeys e1.Responses ↔
          k ∈ mapKeys e.Responses ∨ ∃ o ∈ opts, ∃ c, responseCode o = some c ∧ k = Itoa c) ∧
        (∀ code : Int, mapGet e1.Responses (Itoa code) =
          match lastResponse env fuel opts code with
          | some r => some r
          | none => mapGet e.Responses (Itoa code)) := by
  induction opts with
  | nil =>
    intro e _
    exact ⟨e, rfl, rfl, rfl, rfl, fun h => h, by simp, fun _ => rfl⟩
  | cons o rest ih =>
    intro e h
    obtain ⟨e1, h1, hm1, hp1, hc1, hr1⟩ :=
      apply_of_returns env fuel o e (h o (List.mem_cons_self _ _))
    obtain ⟨e2, h2, hm2, hp2, hc2, hn2, hk2, hg2⟩ :=
      ih e1 (fun o2 ho2 => h o2 (List.mem_cons_of_mem _ ho2))
    refine ⟨e2, by simp only [applyOptions, h1, h2], hm2.trans hm1, ?_, ?_, ?_, ?_, ?_⟩
    · rw [hp2, hp1, ← producesAfter_cons]
    · rw [hc2, hc1, ← consumesAfter_cons]
    · intro hn
      apply hn2
      rw [hr1]
      split
      · exact nodup_mapKeys_mapSet _ _ _ hn
      · exact hn
    · intro k
      rw [hk2, hr1]
      constructor
      · rintro (hk | ⟨o2, ho2, c, hc, rfl⟩)
        · split at hk
          · rename_i code r hcode hresp
            rcases (mem_mapKeys_mapSet _ _ _ _).mp hk with hk | hk
            · exact Or.inl hk
            · exact Or.inr ⟨o, List.mem_cons_self _ _, code, hcode, hk⟩
          · exact Or.inl hk
        · exact Or.inr ⟨o2, List.mem_cons_of_mem _ ho2, c, hc, rfl⟩
      · rintro (hk | ⟨o2, ho2, c, hc, rfl⟩)
        · left
          split
          · exact (mem_mapKeys_mapSet _ _ _ _).mpr (Or.inl hk)
          · exact hk
        · rcases List.mem_cons.mp ho2 with rfl | ho2
          · left
            have hret := h o2 (List.mem_cons_self _ _)
            cases o2 with
            | ResponseType code t name description ropts =>
              obtain ⟨s, hs⟩ := hret
              simp only [responseCode, Option.some.injEq] at hc
              subst hc
              simp only [responseCode, responseOf, buildResponse, hs]
              exact (mem_mapKeys_mapSet _ _ _ _).mpr (Or.inr rfl)
            | Response code prototype name description ropts =>
              obtain ⟨s, hs⟩ := hret
              simp only [responseCode, Option.some.injEq] at hc
              subst hc
              simp only [responseCode, responseOf, buildResponse, hs]
              exact (mem_mapKeys_mapSet _ _ _ _).mpr (Or.inr rfl)
            | _ => simp [responseCode] at hc
          · exact Or.inr ⟨o2, ho2, c, hc, rfl⟩
    · intro code
      rw [hg2]
      simp only [lastResponse]
      cases hl : lastResponse env fuel rest code with
      | some r => rfl
      | none =>
        simp only
        rw [hr1]
        have hret := h o (List.mem_cons_self _ _)
        cases o with
        | ResponseType c t name description ropts =>
          obtain ⟨s, hs⟩ := hret
          simp only [responseCode, responseOf, buildResponse, hs, Option.some.injEq]
          by_cases hcc : c = code
          · subst hcc
            simp [mapGet_mapSet_self]
          · have : Itoa code ≠ Itoa c := fun he => hcc (Itoa_injective _ _ he).symm
            simp [hcc, mapGet_mapSet_of_ne _ _ _ _ this]
        | Response c prototype name description ropts =>
          obtain ⟨s, hs⟩ := hret
          simp only [responseCode, responseOf, buildResponse, hs, Option.some.injEq]
          by_cases hcc : c = code
          · subst hcc
            simp [mapGet_mapSet_self]
          · have : Itoa code ≠ Itoa c := fun he => hcc (Itoa_injective _ _ he).symm
            simp [hcc, mapGet_mapSet_of_ne _ _ _ _ this]
        | _ => simp [responseCode]

end EndpointBuilder

theorem producesAfter_of_no_option (opts : List EndpointBuilder.EndpointOption) :
    ∀ (d : List String), (∀ v, EndpointBuilder.EndpointOption.Produces v ∉ opts) →
      EndpointBuilder.producesAfter opts d = d := by
  induction opts with
  | nil => intro d _; rfl
  | cons o rest ih =>
    intro d h
    have hr : ∀ v, EndpointBuilder.EndpointOption.Produces v ∉ rest :=
      fun v hv => h v (List.mem_cons_of_mem _ hv)
    cases o with
    | Produces v => exact absurd (List.mem_cons_self _ _) (h v)
    | _ => exact ih d hr

theorem consumesAfter_of_no_option (opts : List EndpointBuilder.EndpointOption) :
    ∀ (d : List String), (∀ v, EndpointBuilder.EndpointOption.Consumes v ∉ opts) →
      EndpointBuilder.consumesAfter opts d = d := by
  induction opts with
  | nil => intro d _; rfl
  | cons o rest ih =>
    intro d h
    have hr : ∀ v, EndpointBuilder.EndpointOption.Consumes v ∉ rest :=
      fun v hv => h v (List.mem_cons_of_mem _ hv)
    cases o with
    | Consumes v => exact absurd (List.mem_cons_self _ _) (h v)
    | _ => exact ih d hr

/-- The value of `Produces` after a list of options that contains a `Produces`
option with no later one is the argument of that option. -/
theorem producesAfter_last (pre post : List EndpointBuilder.EndpointOption) (v : List String) :
    ∀ (d : List String), (∀ w, EndpointBuilder.EndpointOption.Produces w ∉ post) →
      EndpointBuilder.producesAfter (pre ++ .Produces v :: post) d = v := by
  induction pre with
  | nil => intro d h; exact producesAfter_of_no_option post v h
  | cons o pre ih =>
    intro d h
    rw [List.cons_append, EndpointBuilder.producesAfter_cons]
    exact ih _ h

/-- The value of `Consumes` after a list of options that contains a `Consumes`
option with no later one is the argument of that option. -/
theorem consumesAfter_last (pre post : List EndpointBuilder.EndpointOption) (v : List String) :
    ∀ (d : List String), (∀ w, EndpointBuilder.EndpointOption.Consumes w ∉ post) →
      EndpointBuilder.consumesAfter (pre ++ .Consumes v :: post) d = v := by
  induction pre with
  | nil => intro d h; exact consumesAfter_of_no_option post v h
  | cons o pre ih =>
    intro d h
    rw [List.cons_append, EndpointBuilder.consumesAfter_cons]
    exact ih _ h

/-- C19 (amended). For every list of options of which each returns when it is
built and applied (the prototype of every response is one on which
`MakeSchema` returns), `endpoint.New` returns an endpoint whose `Responses`
has no key twice, has as keys exactly the decimal strings of the status codes
of the `Response` and `ResponseType` options, and holds under the decimal
string of a code the response built by the last option with that code;
decimal strings of different codes differ. -/
theorem C19_responses_keyed_by_status_code (lib : EndpointBuilder.StringLib) (env : Env)
    (fuel : Nat) (method path summary : String) (opts : List EndpointBuilder.EndpointOption)
    (hret : ∀ o ∈ opts, EndpointBuilder.optionReturns env fuel o) :
    ∃ e, EndpointBuilder.New lib env fuel method path summary opts = .ok e ∧
      (mapKeys e.Responses).Nodup ∧
      (∀ k, k ∈ mapKeys e.Responses ↔
        ∃ o ∈ opts, ∃ c, EndpointBuilder.responseCode o = some c ∧ k = Itoa c) ∧
      (∀ code : Int, mapGet e.Responses (Itoa code) =
        EndpointBuilder.lastResponse env fuel opts code) ∧
      (∀ a b : Int, Itoa a = Itoa b → a = b) := by
  obtain ⟨e, he, _, _, _, hn, hk, hg⟩ :=
    EndpointBuilder.applyOptions_of_returns env fuel opts
      (EndpointBuilder.newEndpoint lib method path summary) hret
  refine ⟨e, he, hn (by simp [EndpointBuilder.newEndpoint, mapKeys]), ?_, ?_, Itoa_injective⟩
  · intro k
    rw [hk]
    simp [EndpointBuilder.newEndpoint, mapKeys]
  · intro code
    rw [hg]
    cases EndpointBuilder.lastResponse env fuel opts code <;> rfl

/-- C19 (counterexample). With a `Response` option whose prototype is the
untyped nil, `endpoint.New` returns no endpoint, whatever the fuel:
`MakeSchema` panics when the option is applied. -/
theorem C19_counterexample :
    ¬ ∃ (lib : EndpointBuilder.StringLib) (fuel : Nat) (e : Endpoint),
        EndpointBuilder.New lib [] fuel "get" "/pets" ""
          [.Response 200 Proto.nil "" "ok" []] = .ok e := by
  rintro ⟨lib, fuel, e, h⟩
  cases fuel <;>
    simp [EndpointBuilder.New, EndpointBuilder.applyOptions, EndpointBuilder.EndpointOption.apply,
      EndpointBuilder.buildResponse, MakeSchema, defineObject, protoType] at h

/-- C19 (witness). The options `Response(200, Person{})`,
`Response(404, Person{})` and again `Response(200, Person{})` return, and so
does `New`, with the keys `200` and `404` and no other. -/
theorem C19_witness :
    ∃ e, EndpointBuilder.New EndpointBuilder.asciiLib apiResponseEnv 2 "get" "/pets" ""
          [.Response 200 (.value (.struct 1) []) "" "first" [],
           .Response 404 (.value (.struct 1) []) "" "missing" [],
           .Response 200 (.value (.struct 1) []) "" "last" []] = .ok e ∧
      (mapKeys e.Responses).Nodup ∧
      (∀ k, k ∈ mapKeys e.Responses ↔
        ∃ o ∈ [EndpointBuilder.EndpointOption.Response 200 (.value (.struct 1) []) "" "first" [],
               .Response 404 (.value (.struct 1) []) "" "missing" [],
               .Response 200 (.value (.struct 1) []) "" "last" []],
          ∃ c, EndpointBuilder.responseCode o = some c ∧ k = Itoa c) :=
  let ⟨e, he, hn, hk, _⟩ :=
    C19_responses_keyed_by_status_code EndpointBuilder.asciiLib apiResponseEnv 2 "get" "/pets" ""
      [.Response 200 (.value (.struct 1) []) "" "first" [],
       .Response 404 (.value (.struct 1) []) "" "missing" [],
       .Response 200 (.value (.struct 1) []) "" "last" []]
      (by
        intro o ho
        simp only [List.mem_cons, List.mem_singleton, List.not_mem_nil, or_false] at ho
        rcases ho with rfl | rfl | rfl <;> exact ⟨_, rfl⟩)
  ⟨e, he, hn, hk⟩

/-- C20 (amended). For every method string, path, summary and list of options
of which each returns when it is built and applied, `endpoint.New` returns an
endpoint whose `Method` is the upper-cased method and whose `Produces` and
`Consumes` are the argument of the last `Produces` and `Consumes` option,
and `["application/json"]` when there is no such option; and for every list of
options `Get`, `Post`, `Put`, `Delete`, `Patch` and `Options` are `New` with
the methods `get`, `post`, `put`, `delete`, `patch` and `options`. -/
theorem C20_New_method_produces_consumes (lib : EndpointBuilder.StringLib) (env : Env)
    (fuel : Nat) (method path summary : String) (opts : List EndpointBuilder.EndpointOption)
    (hret : ∀ o ∈ opts, EndpointBuilder.optionReturns env fuel o) :
    (∃ e, EndpointBuilder.New lib env fuel method path summary opts = .ok e ∧
      e.Method = lib.ToUpper method ∧
      e.Produces = EndpointBuilder.producesAfter opts ["application/json"] ∧
      e.Consumes = EndpointBuilder.consumesAfter opts ["application/json"] ∧
      ((∀ v, EndpointBuilder.EndpointOption.Produces v ∉ opts) →
        e.Produces = ["application/json"]) ∧
      ((∀ v, EndpointBuilder.EndpointOption.Consumes v ∉ opts) →
        e.Consumes = ["application/json"]) ∧
      (∀ pre post v, opts = pre ++ .Produces v :: post →
        (∀ w, EndpointBuilder.EndpointOption.Produces w ∉ post) → e.Produces = v) ∧
      (∀ pre post v, opts = pre ++ .Consumes v :: post →
        (∀ w, EndpointBuilder.EndpointOption.Consumes w ∉ post) → e.Consumes = v)) ∧
    (∀ options, EndpointBuilder.Get lib env fuel path summary options =
      EndpointBuilder.New lib env fuel "get" path summary options) ∧
    (∀ options, EndpointBuilder.Post lib env fuel path summary options =
      EndpointBuilder.New lib env fuel "post" path summary options) ∧
    (∀ options, EndpointBuilder.Put lib env fuel path summary options =
      EndpointBuilder.New lib env fuel "put" path summary options) ∧
    (∀ options, EndpointBuilder.Delete lib env fuel path summary options =
      EndpointBuilder.New lib env fuel "delete" path summary options) ∧
    (∀ options, EndpointBuilder.Patch lib env fuel path summary options =
      EndpointBuilder.New lib env fuel "patch" path summary options) ∧
    (∀ options, EndpointBuilder.Options lib env fuel path summary options =
      EndpointBuilder.New lib env fuel "options" path summary options) := by
  obtain ⟨e, he, hm, hp, hc, _⟩ :=
    EndpointBuilder.applyOptions_of_returns env fuel opts
      (EndpointBuilder.newEndpoint lib method path summary) hret
  refine ⟨⟨e, he, hm, hp, hc, ?_, ?_, ?_, ?_⟩, fun _ => rfl, fun _ => rfl, fun _ => rfl,
    fun _ => rfl, fun _ => rfl, fun _ => rfl⟩
  · intro h
    rw [hp]
    exact producesAfter_of_no_option opts _ h
  · intro h
    rw [hc]
    exact consumesAfter_of_no_option opts _ h
  · intro pre post v ho h
    rw [hp, ho]
    exact producesAfter_last pre post v _ h
  · intro pre post v ho h
    rw [hc, ho]
    exact consumesAfter_last pre post v _ h

/-- C20 (counterexample). With a `Response` option whose prototype is the
untyped nil, `endpoint.New` returns no endpoint, whatever the library
functions and the fuel, hence none with the upper-cased method. -/
theorem C20_counterexample :
    ¬ ∃ (lib : EndpointBuilder.StringLib) (fuel : Nat) (e : Endpoint),
        EndpointBuilder.New lib [] fuel "post" "/pets" "Add a pet"
          [.Response 201 Proto.nil "" "created" []] = .ok e ∧
        e.Method = lib.ToUpper "post" := by
  rintro ⟨lib, fuel, e, h, _⟩
  cases fuel <;>
    simp [EndpointBuilder.New, EndpointBuilder.applyOptions, EndpointBuilder.EndpointOption.apply,
      EndpointBuilder.buildResponse, MakeSchema, defineObject, protoType] at h

/-- C20 (witness). `New("get", "/pets", "List pets", Produces("text/plain"))`
returns an endpoint with the method `GET`, `Produces` `["text/plain"]` and
`Consumes` `["application/json"]`. -/
theorem C20_witness :
    ∃ e, EndpointBuilder.New EndpointBuilder.asciiLib [] 0 "get" "/pets" "List pets"
          [.Produces ["text/plain"]] = .ok e ∧
      e.Method = "GET" ∧ e.Produces = ["text/plain"] ∧ e.Consumes = ["application/json"] :=
  let ⟨e, he, hm, hp, hc, _⟩ :=
    (C20_New_method_produces_consumes EndpointBuilder.asciiLib [] 0 "get" "/pets" "List pets"
      [.Produces ["text/plain"]]
      (by
        intro o ho
        simp only [List.mem_singleton] at ho
        subst ho
        trivial)).1
  ⟨e, he, hm.trans (by decide), hp, hc⟩

/-! ## Lemmas for the claims C21 to C25 -/

theorem strContains_empty_string : strContains "" ",string" = false := by decide

/-- For a slice whose element is not a slice and not of kind bool, the `Items`
fragment carries the `Type`, `Format` and `Ref` of `inspect` of the element. -/
theorem inspect_slice_items (env : Env) (p n : String) (e : GoType) (tag : String)
    (htag : strContains tag ",string" = false)
    (hbool : ∀ a b, e ≠ .leaf .Bool a b) (hslice : ∀ a b e2, e ≠ .slice a b e2) :
    (inspect env (.slice p n e) tag).Typ = "array" ∧
    (inspect env (.slice p n e) tag).Items =
      some { Typ := (inspect env e "").Typ, Format := (inspect env e "").Format,
             Ref := (inspect env e "").Ref } := by
  cases e with
  | leaf k a b =>
    cases k <;>
      first
      | exact absurd rfl (hbool a b)
      | simp [inspect, htag, strContains_empty_string, itemsOfLeaf]
  | struct id => simp [inspect, htag, strContains_empty_string]
  | ptr a b e2 => simp [inspect, htag, strContains_empty_string]
  | slice a b e2 => exact absurd rfl (hslice a b e2)

/-- Every slice gets the type `array` and an `Items` fragment. -/
theorem inspect_slice_array (env : Env) (p n : String) (e : GoType) (tag : String)
    (htag : strContains tag ",string" = false) :
    (inspect env (.slice p n e) tag).Typ = "array" ∧
    (inspect env (.slice p n e) tag).Items.isSome = true := by
  cases e with
  | leaf k a b => simp [inspect, htag]
  | struct id => simp [inspect, htag]
  | ptr a b e2 => simp [inspect, htag]
  | slice a b e2 => simp [inspect, htag]

theorem fieldType_type (t1 t2 : GoType) (i : Nat) (field : StructField) :
    fieldType (.type t1) i field = fieldType (.type t2) i field := by
  simp only [fieldType]

theorem defineField_type (env : Env) (child : GoType → Except Err Object) (t1 t2 : GoType)
    (i : Nat) (field : StructField) (acc : FieldAcc) :
    defineField env child (.type t1) i field acc =
      defineField env child (.type t2) i field acc := by
  simp only [defineField, fieldType_type t1 t2]

theorem defineFields_type (env : Env) (child : GoType → Except Err Object) (t1 t2 : GoType)
    (fields : List StructField) :
    ∀ (i : Nat) (acc : FieldAcc),
      defineFields env child (.type t1) i fields acc =
        defineFields env child (.type t2) i fields acc := by
  induction fields with
  | nil => intro i acc; rfl
  | cons f rest ih =>
    intro i acc
    simp only [defineFields, defineField_type env child t1 t2]
    cases defineField env child (.type t2) i f acc with
    | error e => rfl
    | ok acc1 => exact ih _ _

/-- What `defineObject` returns on a type descriptor whose unwrapped type is
the struct `id`, in terms of the field loop run on the struct itself. -/
theorem defineObject_type_struct (env : Env) (fuel : Nat) (name : String) (t0 : GoType)
    (id : Nat) (ht : unwrapped t0 = .struct id) :
    defineObject env (fuel + 1) name (.type t0) =
      match defineFields env (fun ft => defineObject env fuel "" (.type ft))
          (.type (.struct id)) 0 (env.decl id).Fields (none, []) with
      | .error e => .error e
      | .ok acc =>
        .ok { IsArray := decide (t0.Kind = Kind.Slice), GoType := .struct id, Typ := "object",
              Name := if name = "" then makeName env (.struct id) else name,
              Required := acc.1, Properties := acc.2 } := by
  simp only [defineObject, protoType]
  simp only [unwrapped] at ht
  simp only [ht]
  rw [defineFields_type env _ t0 (.struct id)]
  cases defineFields env (fun ft => defineObject env fuel "" (.type ft))
      (.type (.struct id)) 0 (env.decl id).Fields (none, []) with
  | error e => rfl
  | ok acc => rfl

theorem defineField_required_keys (env : Env) (child : GoType → Except Err Object)
    (v : Proto) (i : Nat) (field : StructField) (acc acc1 : FieldAcc)
    (h : defineField env child v i field acc = .ok acc1)
    (hacc : ∀ r ∈ acc.1.getD [], r ∈ mapKeys acc.2) :
    ∀ r ∈ acc1.1.getD [], r ∈ mapKeys acc1.2 := by
  have hadd : ∀ (ft : GoType) (name : String),
      ∀ r ∈ (addField env ft field name acc).1.getD [],
        r ∈ mapKeys (addField env ft field name acc).2 := by
    intro ft name r hr
    simp only [addField] at hr ⊢
    by_cases hdash : firstSegment name = "-"
    · simp only [hdash, if_true] at hr ⊢
      exact hacc r hr
    · simp only [hdash, if_false] at hr ⊢
      by_cases hreq : field.required = "true"
      · simp only [hreq, if_true] at hr
        cases hr1 : acc.1 with
        | none =>
          simp only [hr1, appendRequired, Option.getD_some, List.mem_singleton] at hr
          subst hr
          exact (mem_mapKeys_mapSet _ _ _ _).mpr (Or.inr rfl)
        | some l =>
          simp only [hr1, appendRequired, Option.getD_some, List.mem_append,
            List.mem_singleton] at hr
          rcases hr with hr | hr
          · exact mapKeys_mapSet_subset _ _ _ _ (hacc r (by simp [hr1, hr]))
          · subst hr
            exact (mem_mapKeys_mapSet _ _ _ _).mpr (Or.inr rfl)
      · simp only [hreq, if_false] at hr
        exact mapKeys_mapSet_subset _ _ _ _ (hacc r hr)
  simp only [defineField] at h
  split at h
  · cases h
  · cases h; exact hacc
  · split at h
    · cases h
    · rename_i ft hft
      split_ifs at h with h1 h2
      · split at h
        · cases h
        · rename_i c hc
          cases h
          intro r hr
          exact mergeProperties_keys_left _ _ _ (hacc r hr)
      · cases h; exact hadd ft _
      · cases h; exact hadd ft _

theorem defineFields_required_keys (env : Env) (child : GoType → Except Err Object)
    (v : Proto) (fields : List StructField) :
    ∀ (i : Nat) (acc acc1 : FieldAcc), defineFields env child v i fields acc = .ok acc1 →
      (∀ r ∈ acc.1.getD [], r ∈ mapKeys acc.2) →
      ∀ r ∈ acc1.1.getD [], r ∈ mapKeys acc1.2 := by
  induction fields with
  | nil => intro i acc acc1 h hacc; simp only [defineFields] at h; cases h; exact hacc
  | cons f rest ih =>
    intro i acc acc1 h hacc
    simp only [defineFields] at h
    cases hf : defineField env child v i f acc with
    | error e => simp [hf] at h
    | ok acc2 =>
      simp only [hf] at h
      exact ih _ acc2 acc1 h (defineField_required_keys env child v i f acc acc2 hf hacc)

/-! ## The loop of define: what a pass that adds nothing has checked -/

theorem visitProperty_clean (env : Env) (fuel : Nat) (p : Property) (st st1 : LoopState)
    (h : visitProperty env fuel p st = .ok st1) (hd : st1.dirty = false) :
    st1 = st ∧ ∀ id, p.GoType = .struct id →
      (mapGet st.objMap (makeName env p.GoType)).isSome = true := by
  cases hp : p.GoType with
  | struct id =>
    simp only [visitProperty, hp] at h
    by_cases hs : (mapGet st.objMap (makeName env (GoType.struct id))).isSome = true
    · simp only [hs, if_true] at h
      cases h
      exact ⟨rfl, fun _ _ => hs⟩
    · simp only [hs] at h
      cases hc : defineObject env fuel "" (Proto.type (GoType.struct id)) with
      | error e => simp [hc] at h
      | ok child =>
        simp only [hc] at h
        simp at h
        rw [← h] at hd
        simp at hd
  | leaf k a b =>
    simp only [visitProperty, hp] at h; cases h
    exact ⟨rfl, fun id hid => by cases hid⟩
  | ptr a b e =>
    simp only [visitProperty, hp] at h; cases h
    exact ⟨rfl, fun id hid => by cases hid⟩
  | slice a b e =>
    simp only [visitProperty, hp] at h; cases h
    exact ⟨rfl, fun id hid => by cases hid⟩

theorem visitProperties_clean (env : Env) (fuel : Nat) (ps : List Property) :
    ∀ (st st1 : LoopState), visitProperties env fuel ps st = .ok st1 → st1.dirty = false →
      st1 = st ∧ Covered env st.objMap ps := by
  induction ps with
  | nil =>
    intro st st1 h _
    simp only [visitProperties] at h
    cases h
    exact ⟨rfl, fun p hp => by simp at hp⟩
  | cons p ps ih =>
    intro st st1 h hd
    simp only [visitProperties] at h
    cases hv : visitProperty env fuel p st with
    | error e => simp [hv] at h
    | ok st2 =>
      simp only [hv] at h
      obtain ⟨h12, hcov⟩ := ih st2 st1 h hd
      subst h12
      obtain ⟨h2, hp⟩ := visitProperty_clean env fuel p st st1 hv hd
      subst h2
      refine ⟨rfl, ?_⟩
      intro q hq
      rcases List.mem_cons.mp hq with rfl | hq
      · exact hp
      · exact hcov q hq

theorem mem_getD_or_mem_eraseIdx {α : Type} (l : List α) :
    ∀ (i : Nat) (d y : α), y ∈ l → y = l.getD i d ∨ y ∈ l.eraseIdx i := by
  induction l with
  | nil => intro i d y h; simp at h
  | cons a l ih =>
    intro i d y h
    cases i with
    | zero =>
      rcases List.mem_cons.mp h with rfl | h
      · left; rfl
      · right; simpa using h
    | succ i =>
      rcases List.mem_cons.mp h with rfl | h
      · right; simp
      · rcases ih i d y h with h1 | h1
        · left; simpa using h1
        · right; simp [h1]

theorem mem_rangeOrder {α : Type} (choice : Nat → Nat) (n : Nat) :
    ∀ (tick : Nat) (xs : List α) (y : α), xs.length ≤ n → y ∈ xs →
      y ∈ rangeOrder choice n tick xs := by
  induction n with
  | zero =>
    intro tick xs y hl hy
    cases xs with
    | nil => simp at hy
    | cons x xs => simp at hl
  | succ n ih =>
    intro tick xs y hl hy
    cases xs with
    | nil => simp at hy
    | cons x xs =>
      simp only [rangeOrder, List.mem_cons]
      rcases mem_getD_or_mem_eraseIdx (x :: xs) (choice tick % (x :: xs).length) x y hy
        with h | h
      · exact Or.inl h
      · refine Or.inr (ih _ _ _ ?_ h)
        have hlt : choice tick % (x :: xs).length < (x :: xs).length :=
          Nat.mod_lt _ (by simp)
        have hlen : ((x :: xs).eraseIdx (choice tick % (x :: xs).length)).length
            = (x :: xs).length - 1 := by
          simp only [List.length_eraseIdx, hlt, if_true]
        rw [hlen]
        simp only [List.length_cons] at hl ⊢
        omega

theorem visitObject_clean (env : Env) (choice : Nat → Nat) (fuel : Nat) (d : Object)
    (st st1 : LoopState) (h : visitObject env choice fuel d st = .ok st1)
    (hd : st1.dirty = false) :
    st1.objMap = st.objMap ∧ st.dirty = false ∧
      Covered env st.objMap (d.Properties.map Prod.snd) := by
  simp only [visitObject] at h
  obtain ⟨h1, hcov⟩ := visitProperties_clean env fuel _ _ st1 h hd
  subst h1
  refine ⟨rfl, hd, ?_⟩
  intro p hp
  exact hcov p (mem_rangeOrder choice _ _ _ p (by simp) hp)

theorem rangeObjMap_dirty (env : Env) (choice : Nat → Nat) (fuel : Nat) (n : Nat) :
    ∀ (start visited : List String) (st st1 : LoopState),
      rangeObjMap env choice fuel n start visited st = .ok st1 → st1.dirty = false →
      st1.objMap = st.objMap ∧ st.dirty = false := by
  induction n with
  | zero => intro start visited st st1 h; simp [rangeObjMap] at h
  | succ n ih =>
    intro start visited st st1 h hd
    simp only [rangeObjMap] at h
    split at h
    · cases h; exact ⟨rfl, hd⟩
    · split at h
      · cases h; exact ⟨rfl, hd⟩
      · split at h
        · cases h; exact ⟨rfl, hd⟩
        · rename_i d hg
          split at h
          · cases h
          · rename_i st2 hv
            obtain ⟨h1, h2⟩ := ih start _ st2 st1 h hd
            obtain ⟨h3, h4, _⟩ := visitObject_clean env choice fuel d _ st2 hv h2
            exact ⟨h1.trans h3, h4⟩

theorem rangeObjMap_clean (env : Env) (choice : Nat → Nat) (fuel : Nat) (n : Nat) :
    ∀ (start visited : List String) (st st1 : LoopState),
      rangeObjMap env choice fuel n start visited st = .ok st1 → st1.dirty = false →
      (∀ k ∈ mapKeys st.objMap, k ∈ start) →
      (∀ k ∈ visited, CoveredAt env st.objMap k) →
      ∀ k ∈ mapKeys st.objMap, CoveredAt env st.objMap k := by
  induction n with
  | zero => intro start visited st st1 h; simp [rangeObjMap] at h
  | succ n ih =>
    intro start visited st st1 h hd hstart hvis
    simp only [rangeObjMap] at h
    split at h
    · rename_i hpend
      intro k hk
      apply hvis
      by_contra hnv
      have : k ∈ (mapKeys st.objMap).filter (fun k => !visited.contains k) :=
        List.mem_filter.mpr ⟨hk, by simpa using hnv⟩
      rw [hpend] at this
      simp at this
    · rename_i k0 rest hpend
      have hk0 : k0 ∈ (mapKeys st.objMap).filter (fun k => !visited.contains k) := by
        rw [hpend]; exact List.mem_cons_self _ _
      split at h
      · rename_i hall
        exfalso
        have h0 := hstart k0 (List.mem_filter.mp hk0).1
        simp only [Bool.and_eq_true, List.all_eq_true] at hall
        have := hall.1 k0 hk0
        simp [h0] at this
      · have hk : (k0 :: rest).getD (choice st.tick % (k0 :: rest).length) k0
            ∈ (mapKeys st.objMap).filter (fun k => !visited.contains k) := by
          rw [hpend]; exact getD_mem_cons k0 rest _
        generalize (k0 :: rest).getD (choice st.tick % (k0 :: rest).length) k0 = k at hk h
        split at h
        · rename_i hg
          exact absurd (List.mem_filter.mp hk).1 ((mapGet_eq_none_iff _ _).mp hg)
        · rename_i d hg
          split at h
          · cases h
          · rename_i st2 hv
            obtain ⟨h1, h2⟩ := rangeObjMap_dirty env choice fuel n start _ st2 st1 h hd
            obtain ⟨h3, _, hcov⟩ := visitObject_clean env choice fuel d _ st2 hv h2
            have h3 : st2.objMap = st.objMap := h3
            have hcov : Covered env st.objMap (d.Properties.map Prod.snd) := hcov
            have := ih start (k :: visited) st2 st1 h hd
              (by rw [h3]; exact hstart)
              (by
                rw [h3]
                intro k1 hk1
                rcases List.mem_cons.mp hk1 with rfl | hk1
                · intro d1 hd1
                  rw [hg] at hd1
                  cases hd1
                  exact hcov
                · exact hvis k1 hk1)
            rw [h3] at this
            exact this

theorem fixLoop_clean (env : Env) (choice : Nat → Nat) (fuel : Nat) (n : Nat) :
    ∀ (st st1 : LoopState), fixLoop env choice fuel n st = .ok st1 →
      ∀ k ∈ mapKeys st1.objMap, CoveredAt env st1.objMap k := by
  induction n with
  | zero => intro st st1 h; simp [fixLoop] at h
  | succ n ih =>
    intro st st1 h
    simp only [fixLoop] at h
    split at h
    · cases h
    · rename_i st2 hr
      split at h
      · exact ih st2 st1 h
      · rename_i hdirty
        have e : st2 = st1 := by injection h
        rw [← e]
        have hd : st2.dirty = false := by simpa using hdirty
        obtain ⟨h1, _⟩ := rangeObjMap_dirty env choice fuel fuel _ _ _ st2 hr hd
        have h1 : st2.objMap = st.objMap := h1
        have := rangeObjMap_clean env choice fuel fuel _ _ _ st2 hr hd
          (fun k hk => hk) (fun k hk => by simp at hk)
        rw [h1]
        exact this

theorem nodupKeys_step (env : Env) (fuel : Nat) :
    StepInvariant env fuel (fun m => (mapKeys m).Nodup) := by
  intro m id child hm _ _
  exact nodup_mapKeys_mapSet m _ _ hm

theorem mapGet_of_mem_nodup {β : Type} (m : List (String × β)) (k : String) (v : β)
    (hn : (mapKeys m).Nodup) (h : (k, v) ∈ m) : mapGet m k = some v := by
  induction m with
  | nil => simp at h
  | cons e rest ih =>
    obtain ⟨k0, v0⟩ := e
    simp only [mapKeys, List.map_cons, List.nodup_cons] at hn
    rcases List.mem_cons.mp h with h | h
    · cases h
      simp [mapGet]
    · have hne : k0 ≠ k := by
        rintro rfl
        exact hn.1 (List.mem_map.mpr ⟨(k0, v), h, rfl⟩)
      simp only [mapGet, hne, if_false]
      exact ih hn.2 h

/-! ## The claims C21 to C25 -/

/-- C21. Whenever `define` returns a registry, whatever the prototype, the
name hint, the order of the ranges and the fuel, for every definition of the
registry and every property of it whose `GoType` is of struct kind,
`makeName` of that type is a key of the registry. -/
theorem C21_define_registry_closed (env : Env) (choice : Nat → Nat) (fuel : Nat)
    (aliasName : String) (v : Proto) (reg : Registry)
    (h : define env choice fuel aliasName v = .ok reg) :
    ∀ e ∈ reg, ∀ p ∈ e.2.Properties.map Prod.snd, ∀ id, p.GoType = .struct id →
      makeName env p.GoType ∈ mapKeys reg := by
  have hn : (mapKeys reg).Nodup :=
    define_preserves env choice fuel (fun m => (mapKeys m).Nodup) (nodupKeys_step env fuel)
      aliasName v reg (fun obj _ => by simp [mapKeys]) h
  simp only [define] at h
  split at h
  · cases h
  · rename_i obj hobj
    split at h
    · cases h
    · rename_i st hst
      have e : st.objMap = reg := by injection h
      have hcl := fixLoop_clean env choice fuel fuel _ st hst
      rw [e] at hcl
      intro d hd p hp id hid
      have hk : d.1 ∈ mapKeys reg := List.mem_map.mpr ⟨d, hd, rfl⟩
      have hg : mapGet reg d.1 = some d.2 := mapGet_of_mem_nodup reg d.1 d.2 hn hd
      have hs := hcl d.1 hk d.2 hg p hp id hid
      by_contra hnot
      rw [(mapGet_eq_none_iff reg _).mpr hnot] at hs
      simp at hs

/-- C21 (witness). For `R { A struct{ X int }; B struct{ Y string } }` `define`
returns a registry with two definitions, and the name of the type of the
properties `A` and `B` of `R` is a key of it. -/
theorem C21_witness :
    ∃ reg, define anonEnv (fun _ => 0) 4 "" (.value (.struct 0) []) = .ok reg ∧
      reg.length = 2 ∧
      ∀ e ∈ reg, ∀ p ∈ e.2.Properties.map Prod.snd, ∀ id, p.GoType = .struct id →
        makeName anonEnv p.GoType ∈ mapKeys reg :=
  ⟨_, rfl, rfl,
    C21_define_registry_closed anonEnv (fun _ => 0) 4 "" (.value (.struct 0) []) _ rfl⟩

/-- C22 (evaluation at the failing input). For the slice type `[]bool` and the
empty tag `inspect` returns `Type` `array` and an `Items` fragment with empty
`Type`, `Format` and `Ref`, while `inspect(bool, "")` has `Type` `boolean`. -/
theorem C22_bool_slice_items_untyped (env : Env) :
    inspect env (.slice "" "" (.leaf .Bool "" "bool")) "" =
        { GoType := .leaf .Bool "" "bool", Typ := "array",
          Items := some { Typ := "", Format := "", Ref := "" } } ∧
      (inspect env (.leaf .Bool "" "bool") "").Typ = "boolean" :=
  ⟨rfl, rfl⟩

/-- C23. For every struct type `T` given as a type descriptor, every name hint
and every fuel, `defineObject(name, *T)` is `defineObject(name, T)`, and
`defineObject(name, []T)` and `defineObject(name, []*T)` are
`defineObject(name, T)` with `IsArray` set to true (a panic of the one is a
panic of the other); the object of `T` itself has `IsArray` false. -/
theorem C23_unwrapping_is_transparent (env : Env) (fuel : Nat) (name : String) (id : Nat)
    (p n q m : String) :
    defineObject env fuel name (.type (.ptr p n (.struct id))) =
        defineObject env fuel name (.type (.struct id)) ∧
    defineObject env fuel name (.type (.slice p n (.struct id))) =
        (defineObject env fuel name (.type (.struct id))).map
          (fun o => { o with IsArray := true }) ∧
    defineObject env fuel name (.type (.slice p n (.ptr q m (.struct id)))) =
        (defineObject env fuel name (.type (.struct id))).map
          (fun o => { o with IsArray := true }) ∧
    (∀ obj, defineObject env fuel name (.type (.struct id)) = .ok obj →
      obj.IsArray = false) := by
  cases fuel with
  | zero =>
    refine ⟨rfl, rfl, rfl, ?_⟩
    intro obj h
    cases h
  | succ fuel =>
    rw [defineObject_type_struct env fuel name (.ptr p n (.struct id)) id rfl,
      defineObject_type_struct env fuel name (.slice p n (.struct id)) id rfl,
      defineObject_type_struct env fuel name (.slice p n (.ptr q m (.struct id))) id rfl,
      defineObject_type_struct env fuel name (.struct id) id rfl]
    cases defineFields env (fun ft => defineObject env fuel "" (.type ft))
        (.type (.struct id)) 0 (env.decl id).Fields (none, []) with
    | error e =>
      refine ⟨rfl, rfl, rfl, ?_⟩
      intro obj h
      cases h
    | ok acc =>
      refine ⟨rfl, rfl, rfl, ?_⟩
      intro obj h
      cases h
      rfl

/-- C24. Whenever `defineObject` returns an object, every name of its
`Required` list is a key of its `Properties`; and for a struct the list is
made of the struct's own required fields only: the fields of an inlined child
add properties but no required name. -/
theorem C24_required_names_are_property_keys (env : Env) (fuel : Nat) (name : String)
    (v : Proto) (obj : Object) (h : defineObject env fuel name v = .ok obj) :
    (∀ r ∈ obj.Required.getD [], r ∈ mapKeys obj.Properties) ∧
    (∀ id, obj.GoType = .struct id → obj.Required = requiredNames (env.decl id).Fields) := by
  refine ⟨?_, fun id hid => defineObject_required env fuel name v obj id h hid⟩
  cases fuel with
  | zero => simp [defineObject] at h
  | succ fuel =>
    simp only [defineObject] at h
    cases hv : protoType v with
    | none => simp [hv] at h
    | some t0 =>
      simp only [hv] at h
      cases ht : unwrapped t0 with
      | struct id =>
        simp only [unwrapped] at ht
        simp only [ht] at h
        cases hf : defineFields env (fun ft => defineObject env fuel "" (.type ft)) v 0
            (env.decl id).Fields (none, []) with
        | error e => simp [hf] at h
        | ok acc =>
          simp only [hf] at h
          have e := (Except.ok.injEq _ _).mp h
          rw [← e]
          exact defineFields_required_keys env _ v _ 0 (none, []) acc hf
            (fun r hr => by simp at hr)
      | leaf k a b =>
        simp only [unwrapped] at ht
        simp only [ht] at h
        cases h
        intro r hr
        simp at hr
      | ptr a b e =>
        simp only [unwrapped] at ht
        simp only [ht] at h
        cases h
        intro r hr
        simp at hr
      | slice a b e =>
        simp only [unwrapped] at ht
        simp only [ht] at h
        cases h
        intro r hr
        simp at hr

/-- C24 (witness). For `Pet { Name string; Tag string }` with `Name` required,
`Required` is the list holding `name`, which is a key of `Properties`. -/
theorem C24_witness :
    ∃ obj, defineObject petEnv 1 "" (.value (.struct 0) []) = .ok obj ∧
      obj.Required = some ["name"] ∧ mapKeys obj.Properties = ["name", "tag"] ∧
      ∀ r ∈ obj.Required.getD [], r ∈ mapKeys obj.Properties :=
  ⟨_, rfl, rfl, rfl,
    (C24_required_names_are_property_keys petEnv 1 "" (.value (.struct 0) []) _ rfl).1⟩

/-- C25. For every type and tag the property returned by `inspect` is well
formed: `Ref` is non-empty only if `Type` is empty, `Format` is non-empty only
if `Type` is `integer` or `number`, `Items` is non-nil exactly when `Type` is
`array`, and inside `Items`, `Ref` and `Type` are never both set. -/
theorem C25_inspect_property_well_formed (env : Env) (t : GoType) (tag : String) :
    ((inspect env t tag).Ref ≠ "" → (inspect env t tag).Typ = "") ∧
    ((inspect env t tag).Format ≠ "" →
      (inspect env t tag).Typ = "integer" ∨ (inspect env t tag).Typ = "number") ∧
    ((inspect env t tag).Items ≠ none ↔ (inspect env t tag).Typ = "array") ∧
    (∀ it, (inspect env t tag).Items = some it → it.Ref = "" ∨ it.Typ = "") := by
  have hne : ¬ ("" : String) = "array" := by decide
  by_cases htag : strContains tag ",string" = true
  · simp [inspect, htag, hne]
  · cases t with
    | leaf k a b => cases k <;> simp [inspect, htag, hne]
    | struct id => simp [inspect, htag, hne]
    | ptr a b e => simp [inspect, htag, hne]
    | slice a b e =>
      cases e with
      | leaf k a2 b2 => cases k <;> simp [inspect, htag, itemsOfLeaf, hne]
      | struct id => simp [inspect, htag, hne]
      | ptr a2 b2 e2 => simp [inspect, htag, hne]
      | slice a2 b2 e2 => simp [inspect, htag, hne]

/-! ## The property of one field in the object that defineObject returns -/

theorem defineFields_append (env : Env) (child : GoType → Except Err Object) (v : Proto)
    (l1 l2 : List StructField) :
    ∀ (i : Nat) (acc : FieldAcc),
      defineFields env child v i (l1 ++ l2) acc =
        match defineFields env child v i l1 acc with
        | .error e => .error e
        | .ok acc1 => defineFields env child v (i + l1.length) l2 acc1 := by
  induction l1 with
  | nil => intro i acc; rfl
  | cons f l1 ih =>
    intro i acc
    simp only [List.cons_append, defineFields, List.length_cons]
    cases defineField env child v i f acc with
    | error e => rfl
    | ok acc1 =>
      rw [show i + (l1.length + 1) = i + 1 + l1.length by omega]
      exact ih (i + 1) acc1

theorem mergeProperties_get_of_none (c : Properties) (k : String) :
    ∀ (m : Properties), mapGet c k = none →
      mapGet (mergeProperties m c) k = mapGet m k := by
  induction c with
  | nil => intro m _; rfl
  | cons kv c ih =>
    intro m h
    obtain ⟨k1, v1⟩ := kv
    by_cases hk : k1 = k
    · simp [mapGet, hk] at h
    · simp only [mapGet, hk, if_false] at h
      have h2 : mapGet (mergeProperties (mapSet m k1 v1) c) k = mapGet (mapSet m k1 v1) k :=
        ih _ h
      have h3 : mergeProperties m ((k1, v1) :: c) = mergeProperties (mapSet m k1 v1) c := rfl
      rw [h3, h2]
      exact mapGet_mapSet_of_ne m k1 k v1 (fun e => hk e.symm)

theorem defineField_leaves (env : Env) (fuel : Nat) (v : Proto) (k : String) (j : Nat)
    (f : StructField) (acc acc1 : FieldAcc)
    (hl : LeavesName env fuel v k j f)
    (h : defineField env (fun ft => defineObject env fuel "" (.type ft)) v j f acc = .ok acc1) :
    mapGet acc1.2 k = mapGet acc.2 k := by
  cases hn : lowerFirstByteUnchanged f.Name with
  | none => simp [defineField, hn] at h
  | some b =>
    cases b with
    | true =>
      simp only [defineField, hn] at h
      cases h
      rfl
    | false =>
      cases hft : fieldType v j f with
      | error e => simp [defineField, hn, hft] at h
      | ok ft =>
        rw [defineField_eq env _ v j f acc ft hn hft] at h
        rcases hl with hl | ⟨hinl, hne⟩ | ⟨hinl, hc⟩
        · rw [hn] at hl
          cases hl
        · simp only [hinl, if_false, Bool.false_eq_true] at h
          by_cases hdash : externalName f = "-"
          · simp only [hdash, if_true] at h
            cases h
            rfl
          · simp only [hdash, if_false] at h
            have e := (Except.ok.injEq _ _).mp h
            rw [← e]
            exact mapGet_mapSet_of_ne _ _ _ _ (fun e => hne e.symm)
        · simp only [hinl, if_true] at h
          cases hch : defineObject env fuel "" (.type ft) with
          | error e => simp [hch] at h
          | ok c =>
            simp only [hch] at h
            cases h
            exact mergeProperties_get_of_none _ _ _ (hc ft c hft hch)

theorem defineFields_leaves (env : Env) (fuel : Nat) (v : Proto) (k : String)
    (post : List StructField) :
    ∀ (j0 : Nat) (acc acc1 : FieldAcc),
      (∀ j f, post.get? j = some f → LeavesName env fuel v k (j0 + j) f) →
      defineFields env (fun ft => defineObject env fuel "" (.type ft)) v j0 post acc
        = .ok acc1 →
      mapGet acc1.2 k = mapGet acc.2 k := by
  induction post with
  | nil =>
    intro j0 acc acc1 _ h
    simp only [defineFields] at h
    cases h
    rfl
  | cons f post ih =>
    intro j0 acc acc1 hl h
    simp only [defineFields] at h
    cases hf : defineField env (fun ft => defineObject env fuel "" (.type ft)) v j0 f acc with
    | error e => simp [hf] at h
    | ok acc2 =>
      simp only [hf] at h
      have h1 := defineField_leaves env fuel v k j0 f acc acc2 (hl 0 f rfl) hf
      have h2 := ih (j0 + 1) acc2 acc1
        (fun j g hg => by
          have := hl (j + 1) g (by simpa using hg)
          have e : j0 + (j + 1) = j0 + 1 + j := by omega
          rw [e] at this
          exact this) h
      rw [h2, h1]

/-- C12 (amended). For a struct value whose field number `i` (the fields before
it are `pre`, those after it `post`) is exported, of interface kind, neither
inlined nor named `-`, and holds a value of type `d`, a struct type `X` or a
pointer type to `X`: whenever `defineObject` returns an object and every later
field leaves the field's external name as it is, the object has under that
name the property of a field declared with the type `d`, that is
`inspect(d, tag)` with the desc tag as description. When the json tag does not
contain `,string` this is the property with `GoType` `X`,
`Ref = makeRef(makeName(X))`, empty `Type` and `Format` and nil `Items`; when
it does, it is the property with `GoType` `d`, `Type` `string` and no `Ref`. -/
theorem C12_interface_field_actual_type (env : Env) (fuel : Nat) (name : String)
    (id X : Nat) (dyn : List (Option GoType)) (pre post : List StructField)
    (field : StructField) (d : GoType) (obj : Object)
    (hret : defineObject env (fuel + 1) name (.value (.struct id) dyn) = .ok obj)
    (hfields : (env.decl id).Fields = pre ++ field :: post)
    (hexp : lowerFirstByteUnchanged field.Name = some false)
    (hk : field.Typ.Kind = Kind.Interface)
    (hdyn : dyn.getD pre.length none = some d)
    (hd : d = .struct X ∨ ∃ p n, d = .ptr p n (.struct X))
    (hinl : isInlined field = false) (hne : externalName field ≠ "-")
    (hlater : ∀ j f, post.get? j = some f →
      LeavesName env fuel (.value (.struct id) dyn) (externalName field)
        (pre.length + 1 + j) f) :
    mapGet obj.Properties (externalName field) =
        some { inspect env d field.json with Description := field.desc } ∧
    (strContains field.json ",string" = false →
      mapGet obj.Properties (externalName field) =
        some { GoType := .struct X, Typ := "", Format := "", Description := field.desc,
               Ref := makeRef (makeName env (.struct X)), Items := none }) ∧
    (strContains field.json ",string" = true →
      mapGet obj.Properties (externalName field) =
        some { GoType := d, Typ := "string", Format := "", Description := field.desc,
               Ref := "", Items := none }) := by
  have hmain : mapGet obj.Properties (externalName field) =
      some { inspect env d field.json with Description := field.desc } := by
    simp only [defineObject, protoType] at hret
    have hu : unwrapPtr (if decide ((GoType.struct id).Kind = Kind.Slice) = true
        then unwrapSlice (GoType.struct id) else GoType.struct id) = .struct id := rfl
    simp only [hu, hfields] at hret
    rw [defineFields_append] at hret
    cases hpre : defineFields env (fun ft => defineObject env fuel "" (.type ft))
        (.value (.struct id) dyn) 0 pre (none, []) with
    | error e => simp [hpre] at hret
    | ok accPre =>
      simp only [hpre, defineFields, Nat.zero_add] at hret
      have hft := fieldType_interface_value id pre.length dyn field d hk hdyn
      rw [defineField_eq env _ _ pre.length field accPre d hexp hft] at hret
      simp only [hinl, hne, if_false, Bool.false_eq_true] at hret
      cases hpost : defineFields env (fun ft => defineObject env fuel "" (.type ft))
          (.value (.struct id) dyn) (pre.length + 1) post
          (if field.required = "true" then appendRequired accPre.1 (externalName field)
            else accPre.1,
           mapSet accPre.2 (externalName field)
            { inspect env d field.json with Description := field.desc }) with
      | error e => simp [hpost] at hret
      | ok accPost =>
        simp only [hpost] at hret
        have e := (Except.ok.injEq _ _).mp hret
        rw [← e]
        have := defineFields_leaves env fuel _ (externalName field) post (pre.length + 1) _
          accPost hlater hpost
        simp only at this
        rw [this, mapGet_mapSet_self]
  refine ⟨hmain, ?_, ?_⟩
  · intro htag
    rw [hmain, inspect_struct_or_ptr env X d field.json hd htag]
  · intro htag
    rw [hmain]
    simp [inspect, htag]

/-- C12 (counterexample). The field `Data interface{}` tagged
`json:"data,string"` that holds a `Person` gets the property with `Type`
`string` and an empty `Ref`, not a reference to `Person`. -/
theorem C12_counterexample :
    ∃ obj p, defineObject stringTagEnv 1 "" (.value (.struct 0) [some (.struct 1)]) = .ok obj ∧
      mapGet obj.Properties "data" = some p ∧ p.Typ = "string" ∧ p.Ref = "" ∧
      p.Ref ≠ makeRef (makeName stringTagEnv (.struct 1)) :=
  ⟨_, _, rfl, rfl, rfl, rfl, by decide⟩

/-- C12 (witness). In the object of `Envelope{Data: &Person{}}`, where the
field `Code` follows the field `Data`, the property `data` refers to
`Person`. -/
theorem C12_witness :
    ∃ obj, defineObject envelopeEnv 1 ""
        (.value (.struct 0) [some (.ptr "" "" (.struct 1)), none]) = .ok obj ∧
      mapKeys obj.Properties = ["data", "code"] ∧
      mapGet obj.Properties "data" =
        some { GoType := .struct 1, Typ := "", Format := "", Description := "",
               Ref := makeRef (makeName envelopeEnv (.struct 1)), Items := none } :=
  ⟨_, rfl, rfl,
    (C12_interface_field_actual_type envelopeEnv 0 "" 0 1
      [some (.ptr "" "" (.struct 1)), none] []
      [{ Name := "Code", Typ := .leaf .Int "" "int", json := "code" }]
      { Name := "Data", Typ := .leaf .Interface "" "", json := "data" }
      (.ptr "" "" (.struct 1)) _ rfl rfl rfl rfl rfl (Or.inr ⟨"", "", rfl⟩) rfl (by decide)
      (by
        intro j f hf
        cases j with
        | zero =>
          simp only [List.get?_cons_zero, Option.some.injEq] at hf
          subst hf
          exact Or.inr (Or.inl ⟨rfl, by decide⟩)
        | succ j => simp at hf)).2.1 rfl⟩

/-! ## The registry of define: presence of the reachable types -/

theorem mem_mapSet {β : Type} (m : List (String × β)) (k : String) (v : β)
    (e : String × β) (h : e ∈ mapSet m k v) : e ∈ m ∨ e = (k, v) := by
  induction m with
  | nil => simp [mapSet] at h; exact Or.inr h
  | cons e0 rest ih =>
    obtain ⟨k0, v0⟩ := e0
    by_cases hk : k0 = k
    · simp only [mapSet, hk, if_true, List.mem_cons] at h
      rcases h with h | h
      · exact Or.inr h
      · exact Or.inl (List.mem_cons_of_mem _ h)
    · simp only [mapSet, hk, if_false, List.mem_cons] at h
      rcases h with h | h
      · exact Or.inl (h ▸ List.mem_cons_self _ _)
      · rcases ih h with h | h
        · exact Or.inl (List.mem_cons_of_mem _ h)
        · exact Or.inr h

/-- The definition of a struct type made by the loop has the type's name and
describes that type. -/
theorem defineObject_child (env : Env) (fuel : Nat) (id : Nat) (child : Object)
    (h : defineObject env fuel "" (.type (.struct id)) = .ok child) :
    child.GoType = .struct id ∧ child.Name = makeName env (.struct id) := by
  obtain ⟨t0, ht0, -, hgt, hcase⟩ := defineObject_ok env fuel "" _ child h
  simp only [protoType, Option.some.injEq] at ht0
  subst ht0
  have hgt2 : child.GoType = .struct id := by rw [hgt]; rfl
  refine ⟨hgt2, ?_⟩
  rcases hcase with ⟨id2, _, _, hn⟩ | ⟨hne, _⟩
  · rw [hn, hgt2]; simp
  · exact absurd hgt2 (hne id)

theorem rootEntry_step (env : Env) (fuel : Nat) (e0 : String × Object) :
    StepInvariant env fuel (fun m => e0 ∈ m) := by
  intro m id child hm hnone hchild
  have hname := (defineObject_child env fuel id child hchild).2
  have hfresh : child.Name ∉ mapKeys m := by
    rw [hname]; exact (mapGet_eq_none_iff m _).mp hnone
  rw [mapSet_of_not_mem m _ _ hfresh]
  exact List.mem_append_left _ hm

theorem rootOrStruct_step (env : Env) (fuel : Nat) (e0 : String × Object) :
    StepInvariant env fuel
      (fun m => ∀ e ∈ m, e = e0 ∨ ∃ id, e.2.GoType = .struct id) := by
  intro m id child hm _ hchild e he
  rcases mem_mapSet m _ _ e he with he | he
  · exact hm e he
  · subst he
    exact Or.inr ⟨id, (defineObject_child env fuel id child hchild).1⟩

/-- Whenever `define` returns: the root object was defined, and the loop
returned the registry from the one that holds the root alone. -/
theorem define_ok_parts (env : Env) (choice : Nat → Nat) (fuel : Nat) (aliasName : String)
    (v : Proto) (reg : Registry) (h : define env choice fuel aliasName v = .ok reg) :
    ∃ obj st, defineObject env fuel aliasName v = .ok obj ∧
      fixLoop env choice fuel fuel { objMap := [(obj.Name, obj)], dirty := true, tick := 0 }
        = .ok st ∧ st.objMap = reg := by
  simp only [define] at h
  split at h
  · cases h
  · rename_i obj hobj
    split at h
    · cases h
    · rename_i st hst
      exact ⟨obj, st, hobj, hst, by injection h⟩

/-- Whenever `define` returns, every struct-typed property of every definition
has its name among the keys. -/
theorem define_closed_under_properties (env : Env) (choice : Nat → Nat) (fuel : Nat)
    (aliasName : String) (v : Proto) (reg : Registry)
    (h : define env choice fuel aliasName v = .ok reg) :
    ∀ e ∈ reg, ∀ p ∈ e.2.Properties.map Prod.snd, ∀ id, p.GoType = .struct id →
      makeName env p.GoType ∈ mapKeys reg := by
  have hn : (mapKeys reg).Nodup :=
    define_preserves env choice fuel (fun m => (mapKeys m).Nodup) (nodupKeys_step env fuel)
      aliasName v reg (fun obj _ => by simp [mapKeys]) h
  obtain ⟨obj, st, _, hst, e⟩ := define_ok_parts env choice fuel aliasName v reg h
  have hcl := fixLoop_clean env choice fuel fuel _ st hst
  rw [e] at hcl
  intro d hd p hp id hid
  have hk : d.1 ∈ mapKeys reg := List.mem_map.mpr ⟨d, hd, rfl⟩
  have hg : mapGet reg d.1 = some d.2 := mapGet_of_mem_nodup reg d.1 d.2 hn hd
  have hs := hcl d.1 hk d.2 hg p hp id hid
  by_contra hnot
  rw [(mapGet_eq_none_iff reg _).mpr hnot] at hs
  simp at hs

/-- Presence needs names that tell the types apart: for
`R { A struct{ X int }; B struct{ Y string } }`, whose two unnamed struct types
have the same name, the type of `B` is reachable from `R` but no definition of
the registry describes it. -/
theorem define_misses_type_with_shared_name :
    ∃ reg, define anonEnv (fun _ => 0) 4 "" (.value (.struct 0) []) = .ok reg ∧
      Reachable reg (.struct 0) (.struct 2) ∧
      (reg.map (fun e => e.2.GoType)).count (.struct 2) = 0 ∧
      ¬ NamesDistinct anonEnv reg := by
  refine ⟨_, rfl, ?_, by decide, ?_⟩
  · exact Reachable.step
      ("mainR",
        { GoType := .struct 0, Typ := "object", Name := "mainR",
          Properties :=
            [("A", { GoType := .struct 1, Ref := "#/definitions/" }),
             ("B", { GoType := .struct 2, Ref := "#/definitions/" })] })
      { GoType := .struct 2, Ref := "#/definitions/" } 2
      (by decide) Reachable.base (by decide) rfl
  · unfold NamesDistinct
    decide

/-- C3 (amended). With an empty name hint, for every prototype and every order
of the ranges, whenever `define` returns: no two definitions of the registry
describe the same type (have the same `GoType`); the name of every struct type
reachable from the root type is a key of the registry; and when names tell the
types of the registry apart, every type reachable from the root type is
described by exactly one definition of the registry. -/
theorem C3_define_empty_hint_each_type_once (env : Env) (choice : Nat → Nat) (fuel : Nat)
    (v : Proto) (reg : Registry) (h : define env choice fuel "" v = .ok reg) :
    (reg.map (fun e => e.2.GoType)).Nodup ∧
    ∃ t0, protoType v = some t0 ∧
      (∀ T id, Reachable reg (unwrapped t0) T → T = .struct id →
        makeName env T ∈ mapKeys reg) ∧
      (NamesDistinct env reg → ∀ T, Reachable reg (unwrapped t0) T →
        (reg.map (fun e => e.2.GoType)).count T = 1) := by
  obtain ⟨obj, st, hobj, hst, hreg⟩ := define_ok_parts env choice fuel "" v reg h
  obtain ⟨t0, ht0, -, hgt, hcase⟩ := defineObject_ok env fuel "" v obj hobj
  have hkeyed : KeyedByType env reg := by
    refine define_preserves env choice fuel (KeyedByType env) (keyedByType_step env fuel)
      "" v reg ?_ h
    intro obj2 hobj2
    rw [hobj] at hobj2
    cases hobj2
    refine ⟨by simp, ?_⟩
    intro e he id hid
    simp only [List.mem_singleton] at he
    subst he
    rcases hcase with ⟨id2, _, _, hn⟩ | ⟨hne, _⟩
    · simpa using hn
    · exact absurd hid (hne id)
  have hroot : (obj.Name, obj) ∈ reg := by
    rw [← hreg]
    exact fixLoop_preserves env choice fuel (fun m => (obj.Name, obj) ∈ m)
      (rootEntry_step env fuel _) fuel _ st (by simp) hst
  have hros : ∀ e ∈ reg, e = (obj.Name, obj) ∨ ∃ id, e.2.GoType = .struct id := by
    rw [← hreg]
    exact fixLoop_preserves env choice fuel
      (fun m => ∀ e ∈ m, e = (obj.Name, obj) ∨ ∃ id, e.2.GoType = .struct id)
      (rootOrStruct_step env fuel _) fuel _ st (by simp) hst
  have hclosed := define_closed_under_properties env choice fuel "" v reg h
  refine ⟨hkeyed.1, t0, ht0, ?_, ?_⟩
  · intro T id hT hid
    cases hT with
    | base =>
      have hk : obj.Name ∈ mapKeys reg := List.mem_map.mpr ⟨_, hroot, rfl⟩
      have hname := hkeyed.2 _ hroot id (by rw [hgt]; exact hid)
      simp only at hname
      rw [hgt] at hname
      rw [← hname]
      exact hk
    | step e p id2 he _ hp hid2 => exact hclosed e he p hp id2 hid2
  · intro hnames T hT
    have hpresent : ∃ e ∈ reg, e.2.GoType = T := by
      rcases hcase with ⟨rid, hrid, _, _⟩ | ⟨hns, _, hprops, _⟩
      · -- the root is a struct: every definition describes a struct
        have hall : ∀ e ∈ reg, ∃ id, e.2.GoType = .struct id := by
          intro e he
          rcases hros e he with rfl | hs
          · exact ⟨rid, hrid⟩
          · exact hs
        induction hT with
        | base => exact ⟨_, hroot, hgt⟩
        | step e p id he _ hp hid _ =>
          have hk := hclosed e he p hp id hid
          obtain ⟨e1, he1, hk1⟩ := List.mem_map.mp hk
          obtain ⟨id1, hid1⟩ := hall e1 he1
          have hname := hkeyed.2 e1 he1 id1 hid1
          refine ⟨e1, he1, hnames e1 he1 e he p hp (by rw [hid]; rfl) ?_⟩
          rw [← hname]
          exact hk1
      · -- the root is not a struct: it has no property, and nothing else is reachable
        have honly : T = unwrapped t0 := by
          induction hT with
          | base => rfl
          | step e p id he _ hp hid ih =>
            exfalso
            rcases hros e he with rfl | ⟨id2, hid2⟩
            · simp [hprops] at hp
            · rw [ih, ← hgt] at hid2
              exact hns id2 hid2
        rw [honly]
        exact ⟨_, hroot, hgt⟩
    obtain ⟨e, he, heT⟩ := hpresent
    exact List.count_eq_one_of_mem hkeyed.1 (List.mem_map.mpr ⟨e, he, heT⟩)

/-- C3 (counterexample). With the hint `Alias`, the registry of
`Node { Next *Node }` has two definitions of the type `Node`: the root under
`Alias` and, found through the field `Next`, the same type under `mainNode`. -/
theorem C3_counterexample :
    ∃ reg, define nodeEnv (fun _ => 0) 3 "Alias" (.value (.struct 0) []) = .ok reg ∧
      ¬ (reg.map (fun e => e.2.GoType)).Nodup :=
  ⟨_, rfl, by decide⟩

/-- C3 (witness). With the empty hint `define` returns for
`APIResponse{Data: Person{}}` the registry of two definitions; its names tell
its types apart, `Person` is reachable from `APIResponse` through the
property `data`, and each of the two types is described exactly once. -/
theorem C3_witness :
    define apiResponseEnv (fun _ => 0) 4 "" (.value (.struct 0) [none, none, some (.struct 1)])
        = .ok apiResponseRegistry ∧
      NamesDistinct apiResponseEnv apiResponseRegistry ∧
      Reachable apiResponseRegistry (.struct 0) (.struct 1) ∧
      (apiResponseRegistry.map (fun e => e.2.GoType)).Nodup ∧
      (apiResponseRegistry.map (fun e => e.2.GoType)).count (.struct 0) = 1 ∧
      (apiResponseRegistry.map (fun e => e.2.GoType)).count (.struct 1) = 1 := by
  have hnames : NamesDistinct apiResponseEnv apiResponseRegistry := by
    unfold NamesDistinct
    decide
  have hreach : Reachable apiResponseRegistry (.struct 0) (.struct 1) :=
    Reachable.step
      ("mainAPIResponse",
        { GoType := .struct 0, Typ := "object", Name := "mainAPIResponse",
          Properties :=
            [("code", { GoType := .leaf .Int "" "int", Typ := "integer", Format := "int32" }),
             ("message", { GoType := .leaf .String "" "string", Typ := "string" }),
             ("data", { GoType := .struct 1, Ref := "#/definitions/mainPerson" })] })
      { GoType := .struct 1, Ref := "#/definitions/mainPerson" } 1
      (by decide) Reachable.base (by decide) rfl
  obtain ⟨hnd, t0, ht0, -, hcount⟩ :=
    C3_define_empty_hint_each_type_once apiResponseEnv (fun _ => 0) 4
      (.value (.struct 0) [none, none, some (.struct 1)]) apiResponseRegistry rfl
  simp only [protoType, Option.some.injEq] at ht0
  subst ht0
  exact ⟨rfl, hnames, hreach, hnd, hcount hnames _ Reachable.base, hcount hnames _ hreach⟩

end Swagger
